import Mathlib

/-!
Shallow embedding of the photo-triage core (`src/services/filesystem.ts`):
the filename codec, the directory scanner, the reconciler (`loadPhotos`),
the transition engine (`setStatusToPending`, `setStatusToCamera`,
`setStatusToCompleted`, `completeAllPending`), the permission gate
(`ensureMediaPermissions`) and the thumbnail pipeline result handling.

External collaborators (the Capacitor filesystem, the storage-access
plugin, the platform URI resolver, the canvas decoder) are modelled as
explicit ports; file operations return the possibly-modified filesystem
together with an optional thrown-error string, mirroring the JS
`try`/`catch` control flow.  Each transition additionally records the
trace of attempted file operations, so that "performs no file I/O"-style
properties are directly statable.  Strings are modelled at the character
level (JS UTF-16 code-unit subtleties are out of scope).
-/

/-! ## Filename codec -/

/-- Image extensions accepted by the scanner (source: `imageExtensions`). -/
def imageExtensions : List String :=
  ["jpg", "jpeg", "png", "gif", "webp", "heic", "heif"]

/-- Video extensions accepted by the scanner (source: `videoExtensions`). -/
def videoExtensions : List String :=
  ["mp4", "mov", "avi", "mkv", "webm", "3gp"]

/-- JS `value.split('.')` on a character list: the maximal `'.'`-separated
segments, with empty segments kept (so the result is always non-empty). -/
def splitDot : List Char → List (List Char)
  | [] => [[]]
  | c :: cs =>
    let r := splitDot cs
    if c = '.' then [] :: r
    else
      match r with
      | [] => [[c]]
      | h :: t => (c :: h) :: t

/-- `getFileExtension`: substring after the last `.`, lower-cased; `""` when
the name contains no `.` (JS: `filename.split('.')`, last part when more
than one). -/
def getFileExtension (filename : String) : String :=
  let parts := splitDot filename.data
  if parts.length > 1 then String.mk ((parts.getLastD []).map Char.toLower)
  else ""

/-- The `nameWithoutExt` intermediate both codec functions compute:
`filename.slice(0, -(ext.length + 1))`.  Note the JS quirk: when the
extension is empty this drops the final character of the name. -/
def nameWithoutExt (filename : String) : String :=
  String.mk (filename.data.take
    (filename.data.length - ((getFileExtension filename).data.length + 1)))

/-- A character the JS regex `.` matches (anything but a line terminator). -/
def jsDotChar (c : Char) : Bool :=
  !(c = '\n' || c = '\r' || c = Char.ofNat 0x2028 || c = Char.ofNat 0x2029)

/-- `parseInt(s, 10)` on an all-digit string. -/
def digitsToNat (l : List Char) : Nat :=
  l.foldl (fun n c => n * 10 + (c.toNat - '0'.toNat)) 0

/-- `getVersionNumber`: the value of the trailing `~<digits>` of the
name-without-extension (regex `/~(\d+)$/`), or `0` when absent. -/
def getVersionNumber (filename : String) : Nat :=
  let s := nameWithoutExt filename
  let ds := s.data.reverse.takeWhile Char.isDigit
  let rest := s.data.reverse.dropWhile Char.isDigit
  match rest with
  | '~' :: _ => if ds.isEmpty then 0 else digitsToNat ds.reverse
  | _ => 0

/-- `getBaseFilename`: the name-without-extension minus a trailing version
suffix when the regex `/^(.+)~\d+$/` matches (which requires a non-empty
prefix before the `~`, free of line terminators). -/
def getBaseFilename (filename : String) : String :=
  let s := nameWithoutExt filename
  let ds := s.data.reverse.takeWhile Char.isDigit
  let rest := s.data.reverse.dropWhile Char.isDigit
  match rest with
  | '~' :: pre =>
      if ds.isEmpty || pre.isEmpty || !(pre.all jsDotChar) then s
      else String.mk pre.reverse
  | _ => s

/-- `isSupportedFile`: membership of the extension in the fixed allow-list. -/
def isSupportedFile (filename : String) : Bool :=
  (imageExtensions ++ videoExtensions).contains (getFileExtension filename)

/-- `isVideoFile`: membership of the extension in the video list. -/
def isVideoFile (filename : String) : Bool :=
  videoExtensions.contains (getFileExtension filename)

example : getVersionNumber "IMG_1.jpg" = 0 := by decide
example : getVersionNumber "IMG_1~2.jpg" = 2 := by decide
example : getBaseFilename "IMG_1~2.jpg" = "IMG_1" := by decide
example : getFileExtension "IMG_1~2.JPG" = "jpg" := by decide
example : getBaseFilename "README" = "READM" := by decide
example : getBaseFilename "IMG_1~0.jpg" = "IMG_1" := by decide
example : getVersionNumber "IMG_1~0.jpg" = 0 := by decide
example : isSupportedFile "IMG_1~3.jpg" = true := by decide

/-! ## Data model and record store -/

/-- `photoStatusSchema`: `camera | pending | completed`. -/
inductive PhotoStatus
  | camera
  | pending
  | completed
deriving DecidableEq, Repr

/-- `photoSchema` / the `Photo` record (the `mediaDimensions` draft field of
one historical variant is outside the zod schema and outside every claim,
so it is not modelled). -/
structure Photo where
  id : String
  originalName : String
  status : PhotoStatus
  uri : String
  cameraPath : String
  pendingPath : Option String
  completedPath : Option String
  extension : String
  isVideo : Bool
  size : Nat
  modifiedTime : Nat
  thumbnail : Option String
deriving DecidableEq, Repr

/-- The record store (`photoCollection`), keyed by `Photo.id`, kept in
insertion order. -/
abbrev Store := List Photo

/-- `photoCollection.get(id)`. -/
def Store.get (s : Store) (i : String) : Option Photo :=
  List.find? (fun p => decide (p.id = i)) s

/-- `photoCollection.update(id, transform)`: apply the draft transform to
the record with the given key. -/
def Store.update (s : Store) (i : String) (f : Photo → Photo) : Store :=
  List.map (fun p => if p.id = i then f p else p) s

/-- `photoCollection.insert(record)`. -/
def Store.insert (s : Store) (p : Photo) : Store := s ++ [p]

/-! ## Filesystem state and ports -/

/-- The external filesystem: a flat map from full path to file content. -/
structure FS where
  files : List (String × String)
deriving DecidableEq, Repr

/-- One attempted file operation (for effect traces). -/
inductive FileOp
  | copy (src dst : String)
  | del (path : String)
deriving DecidableEq, Repr

/-- The filesystem port (`Filesystem.copy`, `Filesystem.deleteFile`,
`Filesystem.readdir`).  Each mutating call returns the possibly-modified
filesystem and, when the call threw, the thrown error rendered as by JS
`String(error)`; a partially-applied effect before the throw is allowed. -/
structure FsPort where
  copy : FS → String → String → FS × Option String
  deleteFile : FS → String → FS × Option String
  readdir : FS → String → List String

/-- `readDirectory`: list one folder and keep the supported media names
(read failures already degrade to `[]` inside the port). -/
def readDirectory (port : FsPort) (fs : FS) (path : String) : List String :=
  (port.readdir fs path).filter isSupportedFile

/-- Folder configuration (`config.cameraFolder`). -/
def cameraFolder : String := "DCIM/Camera"

/-- Folder configuration (`config.pendingFolder`). -/
def pendingFolder : String := "Pictures/PhotoTriage/Pending"

/-- Folder configuration (`config.completedFolder`). -/
def completedFolder : String := "Pictures/PhotoTriage/Completed"

/-- `{success: boolean, error?: string}`. -/
structure FileOperationResult where
  success : Bool
  error : Option String
deriving DecidableEq, Repr

/-- Result of one transition run: the new store and filesystem, the trace
of attempted file operations, and the returned result value. -/
structure TransOutcome where
  store : Store
  fs : FS
  ops : List FileOp
  result : FileOperationResult
deriving DecidableEq

/-! ## Transition engine -/

/-- The shared `catch`-block rollback: restore `status`, `pendingPath` and
`completedPath` from the pre-call photo argument. -/
def revertPhotoFields (photo : Photo) (store : Store) : Store :=
  store.update photo.id (fun d =>
    { d with status := photo.status, pendingPath := photo.pendingPath,
             completedPath := photo.completedPath })

/-- `setStatusToPending`: optimistic store update, then copy (and, from
`completed`, delete the completed file); rollback on a thrown error. -/
def setStatusToPending (port : FsPort) (photo : Photo) (store : Store)
    (fs : FS) : TransOutcome :=
  match photo.status with
  | .pending => ⟨store, fs, [], ⟨true, none⟩⟩
  | .completed =>
    match photo.completedPath with
    | none => ⟨store, fs, [], ⟨false, some "No completed path available"⟩⟩
    | some cp =>
      let pendingPath := pendingFolder ++ "/" ++ photo.originalName
      let store1 := store.update photo.id (fun d =>
        { d with status := .pending, pendingPath := some pendingPath,
                 completedPath := none })
      match port.copy fs cp pendingPath with
      | (fs1, some e) =>
        ⟨revertPhotoFields photo store1, fs1, [.copy cp pendingPath],
          ⟨false, some e⟩⟩
      | (fs1, none) =>
        match port.deleteFile fs1 cp with
        | (fs2, some e) =>
          ⟨revertPhotoFields photo store1, fs2,
            [.copy cp pendingPath, .del cp], ⟨false, some e⟩⟩
        | (fs2, none) =>
          ⟨store1, fs2, [.copy cp pendingPath, .del cp], ⟨true, none⟩⟩
  | .camera =>
    let pendingPath := pendingFolder ++ "/" ++ photo.originalName
    let store1 := store.update photo.id (fun d =>
      { d with status := .pending, pendingPath := some pendingPath,
               completedPath := none })
    match port.copy fs photo.cameraPath pendingPath with
    | (fs1, some e) =>
      ⟨revertPhotoFields photo store1, fs1,
        [.copy photo.cameraPath pendingPath], ⟨false, some e⟩⟩
    | (fs1, none) =>
      ⟨store1, fs1, [.copy photo.cameraPath pendingPath], ⟨true, none⟩⟩

/-- `setStatusToCamera`: optimistic store update, then delete the pending
or completed file; rollback on a thrown error. -/
def setStatusToCamera (port : FsPort) (photo : Photo) (store : Store)
    (fs : FS) : TransOutcome :=
  match photo.status with
  | .camera => ⟨store, fs, [], ⟨true, none⟩⟩
  | .completed =>
    match photo.completedPath with
    | none => ⟨store, fs, [], ⟨false, some "No completed path available"⟩⟩
    | some cp =>
      let store1 := store.update photo.id (fun d =>
        { d with status := .camera, completedPath := none })
      match port.deleteFile fs cp with
      | (fs1, some e) =>
        ⟨revertPhotoFields photo store1, fs1, [.del cp], ⟨false, some e⟩⟩
      | (fs1, none) => ⟨store1, fs1, [.del cp], ⟨true, none⟩⟩
  | .pending =>
    match photo.pendingPath with
    | none => ⟨store, fs, [], ⟨false, some "No pending path available"⟩⟩
    | some pp =>
      let store1 := store.update photo.id (fun d =>
        { d with status := .camera, pendingPath := none })
      match port.deleteFile fs pp with
      | (fs1, some e) =>
        ⟨revertPhotoFields photo store1, fs1, [.del pp], ⟨false, some e⟩⟩
      | (fs1, none) => ⟨store1, fs1, [.del pp], ⟨true, none⟩⟩

/-- The pending-folder re-scan filter of `setStatusToCompleted`: filenames
whose base and extension match the record's identity. -/
def pendingMatches (port : FsPort) (fs : FS) (photo : Photo) : List String :=
  (readDirectory port fs pendingFolder).filter (fun f =>
    decide (getBaseFilename f = getBaseFilename photo.originalName) &&
    decide (getFileExtension f = photo.extension))

/-- The latest-version choice of `setStatusToCompleted`: the original name
when nothing matched, otherwise `Array.reduce` keeping the first entry
whose version is strictly greater than the accumulator's. -/
def latestVersionFile (originalName : String) (matching : List String) :
    String :=
  match matching with
  | [] => originalName
  | m :: ms =>
    ms.foldl
      (fun prev cur =>
        if getVersionNumber cur > getVersionNumber prev then cur else prev)
      m

/-- Sequential `deleteFile` calls of the pending-folder cleanup loop,
stopping at the first thrown error. -/
def runDeletes (port : FsPort) : List String → FS → FS × List FileOp × Option String
  | [], fs => (fs, [], none)
  | p :: ps, fs =>
    match port.deleteFile fs p with
    | (fs1, some e) => (fs1, [.del p], some e)
    | (fs1, none) =>
      let r := runDeletes port ps fs1
      (r.1, .del p :: r.2.1, r.2.2)

/-- `setStatusToCompleted`: optimistic store update; from `camera`, one copy
into the completed folder; from `pending`, re-scan the pending folder,
copy the latest matching version under the original name, then delete all
matching pending files; rollback on a thrown error. -/
def setStatusToCompleted (port : FsPort) (photo : Photo) (store : Store)
    (fs : FS) : TransOutcome :=
  match photo.status with
  | .completed => ⟨store, fs, [], ⟨true, none⟩⟩
  | .camera =>
    let completedPath := completedFolder ++ "/" ++ photo.originalName
    let store1 := store.update photo.id (fun d =>
      { d with status := .completed, completedPath := some completedPath })
    match port.copy fs photo.cameraPath completedPath with
    | (fs1, some e) =>
      ⟨revertPhotoFields photo store1, fs1,
        [.copy photo.cameraPath completedPath],
        ⟨false, some ("Failed to complete from MediaStore: " ++ e)⟩⟩
    | (fs1, none) =>
      ⟨store1, fs1, [.copy photo.cameraPath completedPath], ⟨true, none⟩⟩
  | .pending =>
    let completedPath := completedFolder ++ "/" ++ photo.originalName
    let store1 := store.update photo.id (fun d =>
      { d with status := .completed, completedPath := some completedPath,
               pendingPath := none })
    let matching := pendingMatches port fs photo
    let latestFilename := latestVersionFile photo.originalName matching
    let latestPath := pendingFolder ++ "/" ++ latestFilename
    match port.copy fs latestPath completedPath with
    | (fs1, some e) =>
      ⟨revertPhotoFields photo store1, fs1, [.copy latestPath completedPath],
        ⟨false, some e⟩⟩
    | (fs1, none) =>
      let r := runDeletes port (matching.map (fun m => pendingFolder ++ "/" ++ m)) fs1
      match r.2.2 with
      | some e =>
        ⟨revertPhotoFields photo store1, r.1,
          .copy latestPath completedPath :: r.2.1, ⟨false, some e⟩⟩
      | none =>
        ⟨store1, r.1, .copy latestPath completedPath :: r.2.1, ⟨true, none⟩⟩

/-- Result of the batch operation, instrumented with the ids whose
individual transitions succeeded and failed (in enumeration order). -/
structure BatchOutcome where
  store : Store
  fs : FS
  ops : List FileOp
  result : FileOperationResult
  succeeded : List String
  failed : List String
deriving DecidableEq

/-- The `for (const photo of pendingPhotos)` loop of `completeAllPending`. -/
def completeAllLoop (port : FsPort) :
    List Photo → Store → FS → Store × FS × List FileOp × List String × List String
  | [], store, fs => (store, fs, [], [], [])
  | p :: ps, store, fs =>
    let r := setStatusToCompleted port p store fs
    let rest := completeAllLoop port ps r.store r.fs
    if r.result.success then
      (rest.1, rest.2.1, r.ops ++ rest.2.2.1, p.id :: rest.2.2.2.1,
        rest.2.2.2.2)
    else
      (rest.1, rest.2.1, r.ops ++ rest.2.2.1, rest.2.2.2.1,
        p.id :: rest.2.2.2.2)

/-- `completeAllPending`: enumerate the pending records, complete each
sequentially, report an aggregate summary on any failure. -/
def completeAllPending (port : FsPort) (store : Store) (fs : FS) :
    BatchOutcome :=
  let pendingPhotos := store.filter (fun p => decide (p.status = .pending))
  let r := completeAllLoop port pendingPhotos store fs
  let succ := r.2.2.2.1
  let fail := r.2.2.2.2
  if fail.length > 0 then
    ⟨r.1, r.2.1, r.2.2.1,
      ⟨false, some ("Completed " ++ toString succ.length ++ " photos, failed "
        ++ toString fail.length)⟩, succ, fail⟩
  else ⟨r.1, r.2.1, r.2.2.1, ⟨true, none⟩, succ, fail⟩

/-! ## Canonical (well-behaved) filesystem port -/

/-- Strip a leading pattern from a character list. -/
def dropLeading : List Char → List Char → Option (List Char)
  | [], rest => some rest
  | _ :: _, [] => none
  | a :: as, b :: bs => if a = b then dropLeading as bs else none

/-- The directory-entry name of a full path relative to one folder:
`folder ++ "/" ++ name` with a non-empty, slash-free `name`. -/
def entryName (folder path : String) : Option String :=
  match dropLeading (folder ++ "/").data path.data with
  | none => none
  | some rest =>
    if rest.isEmpty || rest.contains '/' then none else some (String.mk rest)

/-- Canonical `readdir`: the entry names of one folder, in storage order. -/
def goodReaddir (fs : FS) (folder : String) : List String :=
  fs.files.filterMap (fun pr => entryName folder pr.1)

/-- Canonical `copy`: duplicate the source content under the destination
path (overwriting), throw when the source is absent. -/
def goodCopy (fs : FS) (src dst : String) : FS × Option String :=
  match fs.files.find? (fun pr => decide (pr.1 = src)) with
  | none => (fs, some "copy failed: source file missing")
  | some pr =>
    (⟨fs.files.filter (fun e => !decide (e.1 = dst)) ++ [(dst, pr.2)]⟩, none)

/-- Canonical `deleteFile`: remove the path, throw when it is absent. -/
def goodDelete (fs : FS) (path : String) : FS × Option String :=
  if fs.files.any (fun pr => decide (pr.1 = path)) then
    (⟨fs.files.filter (fun e => !decide (e.1 = path))⟩, none)
  else (fs, some "delete failed: file missing")

/-- The canonical port: every operation succeeds on existing files and has
its intended effect. -/
def goodPort : FsPort := ⟨goodCopy, goodDelete, goodReaddir⟩

/-! ## Permission gate -/

/-- `'granted' | 'denied' | 'prompt'`. -/
inductive PermStatus
  | granted
  | denied
  | prompt
deriving DecidableEq, Repr

/-- The `StorageAccess` plugin port; `Except.error` models a rejected call. -/
structure StorageAccessPort where
  checkPermissions : Except String PermStatus
  requestPermissions : Except String PermStatus

/-- `ensureMediaPermissions` (native branch): check, then request when not
granted; any rejection is caught and reported as `false`. -/
def ensureMediaPermissions (sa : StorageAccessPort) : Bool :=
  match sa.checkPermissions with
  | .ok .granted => true
  | .ok _ =>
    match sa.requestPermissions with
    | .ok .granted => true
    | _ => false
  | .error _ => false

/-! ## Thumbnail pipeline (per-job result handling) -/

/-- `generateThumbnail`: the job's task catches every decode error or
timeout (`Except.error`) and resolves with `undefined` instead of
rejecting. -/
def generateThumbnail (decode : Except String String) : Option String :=
  match decode with
  | .ok t => some t
  | .error _ => none

/-- `generatedThumbnailForPhoto`: await the job; on a falsy result
(absent preview) return without writing, otherwise write the preview onto
the record through the store's update contract. -/
def generatedThumbnailForPhoto (decode : Except String String)
    (photo : Photo) (store : Store) : Store :=
  match generateThumbnail decode with
  | none => store
  | some t =>
    if t = "" then store
    else store.update photo.id (fun d => { d with thumbnail := some t })

/-! ## Reconciler (`loadPhotos`, native branch) -/

/-- The remaining platform collaborators of a reconciliation pass:
`Filesystem.getUri ∘ Capacitor.convertFileSrc` (display reference),
`Filesystem.stat` with its error default (size, modified time), and the
awaited thumbnail generation of the insert branches. -/
structure HostPort where
  uriOf : String → String
  statOf : String → Nat × Nat
  thumbOf : String → Option String

/-- The camera-folder listing of one pass. -/
def cameraListing (port : FsPort) (fs : FS) : List String :=
  readDirectory port fs cameraFolder

/-- The pending-folder listing of one pass. -/
def pendingListing (port : FsPort) (fs : FS) : List String :=
  readDirectory port fs pendingFolder

/-- The completed-folder listing of one pass. -/
def completedListing (port : FsPort) (fs : FS) : List String :=
  readDirectory port fs completedFolder

/-- Camera filenames that survive the verbatim-presence filter against the
pending and completed listings. -/
def cameraProcessedFiles (port : FsPort) (fs : FS) : List String :=
  (cameraListing port fs).filter (fun f =>
    !decide (f ∈ pendingListing port fs) &&
    !decide (f ∈ completedListing port fs))

/-- Pending filenames that survive the verbatim-presence filter against the
completed listing. -/
def pendingProcessedFiles (port : FsPort) (fs : FS) : List String :=
  (pendingListing port fs).filter (fun f =>
    !decide (f ∈ completedListing port fs))

/-- Per-file step of the camera loop: update the existing record (status,
display uri, camera path) or insert a fresh camera record. -/
def processCameraFile (host : HostPort) (store : Store) (filename : String) :
    Store :=
  let baseName := getBaseFilename filename
  let ext := getFileExtension filename
  let cameraPath := cameraFolder ++ "/" ++ filename
  let webUri := host.uriOf cameraPath
  match store.get baseName with
  | some _ =>
    store.update baseName (fun d =>
      { d with status := .camera, uri := webUri, cameraPath := cameraPath })
  | none =>
    store.insert
      { id := baseName, originalName := filename, status := .camera,
        uri := webUri, cameraPath := cameraPath, pendingPath := none,
        completedPath := none, extension := ext,
        isVideo := isVideoFile filename, size := (host.statOf cameraPath).1,
        modifiedTime := (host.statOf cameraPath).2,
        thumbnail := host.thumbOf webUri }

/-- Per-file step of the pending loop (the fire-and-forget thumbnail
refresh it triggers is an un-awaited concurrent effect and is not part of
the pass's store result). -/
def processPendingFile (host : HostPort) (store : Store) (filename : String) :
    Store :=
  let baseName := getBaseFilename filename
  let ext := getFileExtension filename
  let pendingPath := pendingFolder ++ "/" ++ filename
  let webUri := host.uriOf pendingPath
  match store.get baseName with
  | some _ =>
    store.update baseName (fun d =>
      { d with status := .pending, uri := webUri,
               pendingPath := some pendingPath })
  | none =>
    store.insert
      { id := baseName, originalName := filename, status := .pending,
        uri := webUri, cameraPath := "", pendingPath := some pendingPath,
        completedPath := none, extension := ext,
        isVideo := isVideoFile filename, size := (host.statOf pendingPath).1,
        modifiedTime := (host.statOf pendingPath).2, thumbnail := none }

/-- Per-file step of the completed loop. -/
def processCompletedFile (host : HostPort) (store : Store)
    (filename : String) : Store :=
  let baseName := getBaseFilename filename
  let ext := getFileExtension filename
  let completedPath := completedFolder ++ "/" ++ filename
  let webUri := host.uriOf completedPath
  match store.get baseName with
  | some _ =>
    store.update baseName (fun d =>
      { d with status := .completed, uri := webUri,
               completedPath := some completedPath })
  | none =>
    store.insert
      { id := baseName, originalName := filename, status := .completed,
        uri := webUri, cameraPath := "", pendingPath := none,
        completedPath := some completedPath, extension := ext,
        isVideo := isVideoFile filename,
        size := (host.statOf completedPath).1,
        modifiedTime := (host.statOf completedPath).2,
        thumbnail := host.thumbOf webUri }

/-- `loadPhotos` (native branch): scan the three folders, apply the
verbatim-presence filters, then process camera, pending and completed
listings in that fixed order. -/
def loadPhotos (host : HostPort) (port : FsPort) (store : Store) (fs : FS) :
    Store :=
  let s1 := (cameraProcessedFiles port fs).foldl (processCameraFile host) store
  let s2 := (pendingProcessedFiles port fs).foldl (processPendingFile host) s1
  (completedListing port fs).foldl (processCompletedFile host) s2

/-! ## Sample data, concrete ports and auxiliary predicates -/

/-- A sample completed-status record. -/
def samplePhotoCompleted : Photo :=
  { id := "IMG_9", originalName := "IMG_9.jpg", status := .completed,
    uri := "display:Pictures/PhotoTriage/Completed/IMG_9.jpg",
    cameraPath := "DCIM/Camera/IMG_9.jpg", pendingPath := none,
    completedPath := some "Pictures/PhotoTriage/Completed/IMG_9.jpg",
    extension := "jpg", isVideo := false, size := 10, modifiedTime := 5,
    thumbnail := none }

/-- A sample camera-status record. -/
def samplePhotoCamera : Photo :=
  { id := "IMG_7", originalName := "IMG_7.jpg", status := .camera,
    uri := "display:DCIM/Camera/IMG_7.jpg",
    cameraPath := "DCIM/Camera/IMG_7.jpg", pendingPath := none,
    completedPath := none, extension := "jpg", isVideo := false,
    size := 10, modifiedTime := 5, thumbnail := none }

/-- A sample pending-status record. -/
def samplePhotoPending : Photo :=
  { id := "IMG_5", originalName := "IMG_5.jpg", status := .pending,
    uri := "display:Pictures/PhotoTriage/Pending/IMG_5.jpg",
    cameraPath := "DCIM/Camera/IMG_5.jpg",
    pendingPath := some "Pictures/PhotoTriage/Pending/IMG_5.jpg",
    completedPath := none, extension := "jpg", isVideo := false,
    size := 10, modifiedTime := 5, thumbnail := none }

/-- A port whose mutating operations all throw, leaving the filesystem
untouched. -/
def failPort : FsPort :=
  ⟨fun fs _ _ => (fs, some "Error: copy failed"),
   fun fs _ => (fs, some "Error: delete failed"),
   fun _ _ => []⟩

/-- A port whose thrown errors render (via JS `String(error)`) to non-empty
strings, as thrown `Error` objects do. -/
def PortErrorsNonempty (port : FsPort) : Prop :=
  (∀ fs src dst e, (port.copy fs src dst).2 = some e → e ≠ "") ∧
  (∀ fs p e, (port.deleteFile fs p).2 = some e → e ≠ "")

/-- The pending record of the completion examples. -/
def cexPhoto : Photo :=
  { id := "IMG_1", originalName := "IMG_1.jpg", status := .pending,
    uri := "display:Pictures/PhotoTriage/Pending/IMG_1.jpg",
    cameraPath := "DCIM/Camera/IMG_1.jpg",
    pendingPath := some "Pictures/PhotoTriage/Pending/IMG_1.jpg",
    completedPath := none, extension := "jpg", isVideo := false, size := 1,
    modifiedTime := 1, thumbnail := none }

/-- A pending folder holding only a `~0`-suffixed working copy. -/
def cexFsZero : FS :=
  ⟨[("Pictures/PhotoTriage/Pending/IMG_1~0.jpg", "A")]⟩

/-- The spec's four-version pending folder. -/
def wardFs : FS :=
  ⟨[("Pictures/PhotoTriage/Pending/IMG_1.jpg", "v0"),
    ("Pictures/PhotoTriage/Pending/IMG_1~1.jpg", "v1"),
    ("Pictures/PhotoTriage/Pending/IMG_1~3.jpg", "v3"),
    ("Pictures/PhotoTriage/Pending/IMG_1~2.jpg", "v2")]⟩

/-- A concrete host port for witnesses. -/
def sampleHost : HostPort :=
  ⟨fun p => "display:" ++ p, fun _ => (1, 2), fun _ => none⟩

/-- A filesystem where the same filename sits in the camera and completed
folders. -/
def bothFoldersFs : FS :=
  ⟨[("DCIM/Camera/IMG_1.jpg", "x"),
    ("Pictures/PhotoTriage/Completed/IMG_1.jpg", "y")]⟩

/-- The display reference corresponds to the path field matching the
record's status. -/
def uriConsistent (host : HostPort) (r : Photo) : Prop :=
  match r.status with
  | .camera => r.uri = host.uriOf r.cameraPath
  | .pending => ∃ p, r.pendingPath = some p ∧ r.uri = host.uriOf p
  | .completed => ∃ p, r.completedPath = some p ∧ r.uri = host.uriOf p

/-- A camera folder holding the sample camera photo's file. -/
def camOnlyFs : FS := ⟨[("DCIM/Camera/IMG_7.jpg", "c")]⟩

/-- A second pending record, whose pending file will be missing. -/
def samplePhotoPendingMissing : Photo :=
  { id := "IMG_6", originalName := "IMG_6.jpg", status := .pending,
    uri := "display:Pictures/PhotoTriage/Pending/IMG_6.jpg",
    cameraPath := "DCIM/Camera/IMG_6.jpg",
    pendingPath := some "Pictures/PhotoTriage/Pending/IMG_6.jpg",
    completedPath := none, extension := "jpg", isVideo := false,
    size := 10, modifiedTime := 5, thumbnail := none }

/-- A pending folder holding only `IMG_5.jpg`: completing `IMG_5` can
succeed, completing `IMG_6` fails. -/
def oneOfTwoFs : FS :=
  ⟨[("Pictures/PhotoTriage/Pending/IMG_5.jpg", "five")]⟩

/-! ## Record-store lemmas -/

theorem Store.get_nil (j : String) : Store.get [] j = none := rfl

theorem Store.get_cons (p : Photo) (t : Store) (j : String) :
    Store.get (p :: t) j = if p.id = j then some p else Store.get t j := by
  by_cases h : p.id = j <;> simp [Store.get, List.find?_cons, h]

theorem Store.update_cons (p : Photo) (t : Store) (i : String)
    (f : Photo → Photo) :
    Store.update (p :: t) i f = (if p.id = i then f p else p) :: Store.update t i f :=
  rfl

theorem Store.insert_cons (q : Photo) (t : Store) (p : Photo) :
    Store.insert (q :: t) p = q :: Store.insert t p := rfl

theorem Store.get_update (s : Store) (i : String) (f : Photo → Photo)
    (hf : ∀ p, (f p).id = p.id) (j : String) :
    (s.update i f).get j = if i = j then (s.get j).map f else s.get j := by
  induction s with
  | nil =>
    by_cases hij : i = j <;> simp [Store.update, Store.get, hij]
  | cons p t ih =>
    by_cases hij : i = j
    · subst hij
      by_cases hpi : p.id = i
      · have h1 : (f p).id = i := (hf p).trans hpi
        simp [Store.update_cons, Store.get_cons, hpi, h1, ih]
      · simp [Store.update_cons, Store.get_cons, hpi, ih]
    · by_cases hpj : p.id = j
      · have hpi : p.id ≠ i := fun h => hij (by rw [← h, hpj])
        have hji : ¬j = i := fun h => hij h.symm
        simp [Store.update_cons, Store.get_cons, hpi, hpj, hij, hji]
      · by_cases hpi : p.id = i
        · have h1 : (f p).id ≠ j := by rw [hf p, hpi]; exact hij
          simp [Store.update_cons, Store.get_cons, hpi, hpj, hij, h1, ih]
        · simp [Store.update_cons, Store.get_cons, hpi, hpj, hij, ih]

theorem Store.get_update' (s : Store) (i : String) (f : Photo → Photo)
    (j : String) (hf : ∀ p, (f p).id = p.id) :
    (s.update i f).get j = if i = j then (s.get j).map f else s.get j :=
  Store.get_update s i f hf j

theorem Store.get_insert_of_isSome (s : Store) (p : Photo) (j : String)
    (h : (s.get j).isSome) : (s.insert p).get j = s.get j := by
  induction s with
  | nil => simp [Store.get_nil] at h
  | cons q t ih =>
    rw [Store.insert_cons, Store.get_cons, Store.get_cons]
    by_cases hq : q.id = j
    · simp [hq]
    · rw [Store.get_cons] at h
      simp only [hq, if_neg hq, if_false] at h ⊢
      exact ih h

theorem Store.get_insert_of_none (s : Store) (p : Photo) (j : String)
    (h : s.get j = none) :
    (s.insert p).get j = if p.id = j then some p else none := by
  induction s with
  | nil => simp [Store.insert, Store.get_cons, Store.get_nil]
  | cons q t ih =>
    rw [Store.get_cons] at h
    by_cases hq : q.id = j
    · simp [hq] at h
    · rw [if_neg hq] at h
      rw [Store.insert_cons, Store.get_cons, if_neg hq]
      exact ih h

/-! ## Sample data for witnesses -/

/-! ## C5: idempotent transitions -/

/-- C5: invoking a transition whose target status equals the record's
current status returns `success = true`, attempts no file operation and
leaves the store and filesystem unchanged — for all three transitions and
any port. -/
theorem idempotent_transitions_are_noops (port : FsPort) (photo : Photo)
    (store : Store) (fs : FS) :
    (photo.status = .pending →
      setStatusToPending port photo store fs = ⟨store, fs, [], ⟨true, none⟩⟩) ∧
    (photo.status = .camera →
      setStatusToCamera port photo store fs = ⟨store, fs, [], ⟨true, none⟩⟩) ∧
    (photo.status = .completed →
      setStatusToCompleted port photo store fs = ⟨store, fs, [], ⟨true, none⟩⟩) := by
  refine ⟨fun h => ?_, fun h => ?_, fun h => ?_⟩ <;>
    simp [setStatusToPending, setStatusToCamera, setStatusToCompleted, h]

/-- C5 witness: completing an already-completed record is a no-op success
with an empty file-operation trace, even on a port that would fail. -/
theorem idempotent_transitions_are_noops_witness :
    samplePhotoCompleted.status = .completed ∧
    setStatusToCompleted failPort samplePhotoCompleted [samplePhotoCompleted]
        ⟨[]⟩ =
      ⟨[samplePhotoCompleted], ⟨[]⟩, [], ⟨true, none⟩⟩ :=
  ⟨by decide,
   (idempotent_transitions_are_noops failPort samplePhotoCompleted
      [samplePhotoCompleted] ⟨[]⟩).2.2 (by decide)⟩

/-! ## C9: thumbnail job resolution -/

/-- C9: a failed decode resolves the job to an absent preview and writes
nothing to the store; a successful decode (its data-URL preview being
non-empty) writes the preview onto the record's `thumbnail` field through
the store's update contract. -/
theorem thumbnail_job_resolution (decode : Except String String)
    (photo : Photo) (store : Store) :
    (∀ e, decode = .error e →
      generateThumbnail decode = none ∧
      generatedThumbnailForPhoto decode photo store = store) ∧
    (∀ t, decode = .ok t → t ≠ "" →
      generatedThumbnailForPhoto decode photo store =
        store.update photo.id (fun d => { d with thumbnail := some t })) := by
  constructor
  · rintro e rfl
    exact ⟨rfl, rfl⟩
  · rintro t rfl h
    simp [generatedThumbnailForPhoto, generateThumbnail, h]

/-- C9 witness: a timed-out video decode resolves to no preview and leaves
the store untouched; a successful decode writes the preview. -/
theorem thumbnail_job_resolution_witness :
    generateThumbnail (.error "Video thumbnail generation timed out") = none ∧
    generatedThumbnailForPhoto (.error "Video thumbnail generation timed out")
        samplePhotoPending [samplePhotoPending] = [samplePhotoPending] ∧
    generatedThumbnailForPhoto (.ok "data:image/jpeg;base64,xyz")
        samplePhotoPending [samplePhotoPending] =
      [{ samplePhotoPending with thumbnail := some "data:image/jpeg;base64,xyz" }] := by
  refine ⟨?_, ?_, ?_⟩
  · exact ((thumbnail_job_resolution (.error "Video thumbnail generation timed out")
      samplePhotoPending [samplePhotoPending]).1 _ rfl).1
  · exact ((thumbnail_job_resolution (.error "Video thumbnail generation timed out")
      samplePhotoPending [samplePhotoPending]).1 _ rfl).2
  · rw [(thumbnail_job_resolution (.ok "data:image/jpeg;base64,xyz")
      samplePhotoPending [samplePhotoPending]).2 _ rfl (by decide)]
    decide

/-! ## C6: filename codec consistency -/

/-- C6 counterexample: `"README"` has no `.`, so there is no extension to
remove (the name minus its extension is the whole name), yet
`getBaseFilename` returns `"READM"` — the whole name does not become the
base for extension-less names, although the version is 0. -/
theorem codec_extensionless_base_counterexample :
    getFileExtension "README" = "" ∧ getVersionNumber "README" = 0 ∧
    getBaseFilename "README" = "READM" ∧ getBaseFilename "README" ≠ "README" := by
  decide

/-- The split of `nameWithoutExt` when the reversed characters start with a
digit run followed by `'~'`. -/
theorem nameWithoutExt_decomp (filename : String) (pre ds : List Char)
    (hds : (nameWithoutExt filename).data.reverse.takeWhile Char.isDigit = ds)
    (hrest : (nameWithoutExt filename).data.reverse.dropWhile Char.isDigit =
      '~' :: pre) :
    nameWithoutExt filename = String.mk pre.reverse ++ "~" ++ String.mk ds.reverse := by
  have h := List.takeWhile_append_dropWhile (p := Char.isDigit)
    (l := (nameWithoutExt filename).data.reverse)
  rw [hds, hrest] at h
  have hdata : (nameWithoutExt filename).data = (ds ++ '~' :: pre).reverse := by
    rw [h, List.reverse_reverse]
  apply String.ext
  rw [hdata]
  show (ds ++ '~' :: pre).reverse =
    (String.mk pre.reverse ++ "~" ++ String.mk ds.reverse).data
  simp [String.append, List.reverse_append, List.reverse_cons]

/-- Elements of a digit run are digits, also after reversal. -/
theorem reverse_takeWhile_digits (l ds : List Char)
    (hds : l.takeWhile Char.isDigit = ds) : ds.reverse.all Char.isDigit = true := by
  subst hds
  refine List.all_eq_true.mpr fun c hc => ?_
  exact List.mem_takeWhile_imp (List.mem_reverse.mp hc)

/-- A `String.mk` of a non-empty list is not the empty string. -/
theorem string_mk_ne_empty (l : List Char) (h : l ≠ []) : String.mk l ≠ "" := by
  intro he
  exact h (congrArg String.data he)

/-- C6 (amended): `getBaseFilename` and `getVersionNumber` agree on the
shared `nameWithoutExt` intermediate — whenever `getBaseFilename` strips a
suffix, the intermediate is exactly the base followed by `'~'` and a
non-empty digit run whose `parseInt` value `getVersionNumber` reports; and
whenever `getVersionNumber` is non-zero the intermediate ends in such a
`'~'`-digit run.  (For extension-less names the intermediate is the name
minus its final character, not the whole name.) -/
theorem codec_mutually_consistent (filename : String) :
    (getBaseFilename filename = nameWithoutExt filename ∨
      ∃ s : String, s ≠ "" ∧ s.data.all Char.isDigit = true ∧
        nameWithoutExt filename = getBaseFilename filename ++ "~" ++ s ∧
        getVersionNumber filename = digitsToNat s.data) ∧
    (getVersionNumber filename = 0 ∨
      ∃ s p : String, s ≠ "" ∧ s.data.all Char.isDigit = true ∧
        nameWithoutExt filename = p ++ "~" ++ s ∧
        getVersionNumber filename = digitsToNat s.data) := by
  cases hrest : (nameWithoutExt filename).data.reverse.dropWhile Char.isDigit with
  | nil =>
    constructor
    · left; simp [getBaseFilename, hrest]
    · left; simp [getVersionNumber, hrest]
  | cons c pre =>
    by_cases hc : c = '~'
    · subst hc
      by_cases hdse : ((nameWithoutExt filename).data.reverse.takeWhile
          Char.isDigit).isEmpty
      · constructor
        · left; simp [getBaseFilename, hrest, hdse]
        · left; simp [getVersionNumber, hrest, hdse]
      · have hds : (nameWithoutExt filename).data.reverse.takeWhile Char.isDigit ≠ [] := by
          simpa [List.isEmpty_iff] using hdse
        have hdecomp := nameWithoutExt_decomp filename pre
          ((nameWithoutExt filename).data.reverse.takeWhile Char.isDigit)
          rfl hrest
        have hall := reverse_takeWhile_digits
          ((nameWithoutExt filename).data.reverse)
          ((nameWithoutExt filename).data.reverse.takeWhile Char.isDigit) rfl
        have hver : getVersionNumber filename =
            digitsToNat ((nameWithoutExt filename).data.reverse.takeWhile
              Char.isDigit).reverse := by
          simp [getVersionNumber, hrest, hdse]
        have hsne : String.mk ((nameWithoutExt filename).data.reverse.takeWhile
            Char.isDigit).reverse ≠ "" :=
          string_mk_ne_empty _ (by simpa using hds)
        have hsecond : ∃ s p : String, s ≠ "" ∧ s.data.all Char.isDigit = true ∧
            nameWithoutExt filename = p ++ "~" ++ s ∧
            getVersionNumber filename = digitsToNat s.data := by
          refine ⟨String.mk ((nameWithoutExt filename).data.reverse.takeWhile
            Char.isDigit).reverse, String.mk pre.reverse, hsne, hall, hdecomp, hver⟩
        by_cases hok : pre.isEmpty || !(pre.all jsDotChar)
        · exact ⟨Or.inl (by simp [getBaseFilename, hrest, hdse, hok]), Or.inr hsecond⟩
        · have hbase : getBaseFilename filename = String.mk pre.reverse := by
            simp only [getBaseFilename, hrest]
            simp only [Bool.or_eq_true] at hok
            push_neg at hok
            simp [hdse, hok.1, hok.2]
          constructor
          · right
            exact ⟨String.mk ((nameWithoutExt filename).data.reverse.takeWhile
              Char.isDigit).reverse, hsne, hall, by rw [hbase]; exact hdecomp, hver⟩
          · exact Or.inr hsecond
    · constructor
      · left
        simp only [getBaseFilename, hrest]
        cases hc2 : ('~' == c) <;> simp_all [getBaseFilename, hrest]
      · left
        simp only [getVersionNumber, hrest]
        cases hc2 : ('~' == c) <;> simp_all [getVersionNumber, hrest]

/-! ## C1: rollback on failed transitions -/

theorem append_left_ne_empty (a b : String) (ha : a ≠ "") : a ++ b ≠ "" := by
  intro h
  apply ha
  apply String.ext
  have hd : a.data ++ b.data = [] := congrArg String.data h
  exact (List.append_eq_nil.mp hd).1

theorem runDeletes_error_nonempty (port : FsPort)
    (hdel : ∀ fs p e, (port.deleteFile fs p).2 = some e → e ≠ "")
    (ps : List String) (fs : FS) (e : String)
    (h : (runDeletes port ps fs).2.2 = some e) : e ≠ "" := by
  induction ps generalizing fs with
  | nil => simp [runDeletes] at h
  | cons p t ih =>
    rcases hd : port.deleteFile fs p with ⟨fs1, oe⟩
    cases oe with
    | some e2 =>
      simp [runDeletes, hd] at h
      exact h ▸ hdel fs p e2 (by rw [hd])
    | none =>
      simp [runDeletes, hd] at h
      exact ih _ h

/-- After the optimistic update, the catch-block revert restores the full
pre-call record. -/
theorem revert_after_update (photo : Photo) (store : Store)
    (f : Photo → Photo) (hf : ∀ p, (f p).id = p.id)
    (hfp : (fun d => { d with status := photo.status,
                              pendingPath := photo.pendingPath,
                              completedPath := photo.completedPath })
             (f photo) = photo)
    (hget : store.get photo.id = some photo) :
    (revertPhotoFields photo (store.update photo.id f)).get photo.id =
      some photo := by
  have h1 := Store.get_update (store.update photo.id f) photo.id
    (fun d => { d with status := photo.status,
                       pendingPath := photo.pendingPath,
                       completedPath := photo.completedPath })
    (fun p => rfl) photo.id
  have h2 := Store.get_update store photo.id f hf photo.id
  unfold revertPhotoFields
  rw [h1, if_pos rfl, h2, if_pos rfl, hget]
  exact congrArg some hfp

theorem setStatusToPending_rollback (port : FsPort) (photo : Photo)
    (store : Store) (fs : FS) (hport : PortErrorsNonempty port)
    (hget : store.get photo.id = some photo)
    (hfail : (setStatusToPending port photo store fs).result.success = false) :
    (setStatusToPending port photo store fs).store.get photo.id = some photo ∧
    ∃ e, (setStatusToPending port photo store fs).result.error = some e ∧
      e ≠ "" := by
  cases hst : photo.status with
  | pending => simp [setStatusToPending, hst] at hfail
  | completed =>
    cases hcp : photo.completedPath with
    | none =>
      refine ⟨by simpa [setStatusToPending, hst, hcp] using hget,
        "No completed path available", by simp [setStatusToPending, hst, hcp],
        by decide⟩
    | some cp =>
      simp only [setStatusToPending, hst, hcp] at hfail ⊢
      split at hfail
      · rename_i fs1 e heq
        refine ⟨?_, e, by simp, hport.1 _ _ _ _ (by rw [heq])⟩
        exact revert_after_update photo store _ (fun p => rfl) rfl hget
      · rename_i fs1 heq
        split at hfail
        · rename_i fs2 e heq2
          refine ⟨?_, e, by simp, hport.2 _ _ _ (by rw [heq2])⟩
          exact revert_after_update photo store _ (fun p => rfl) rfl hget
        · simp at hfail
  | camera =>
    simp only [setStatusToPending, hst] at hfail ⊢
    split at hfail
    · rename_i fs1 e heq
      refine ⟨?_, e, by simp, hport.1 _ _ _ _ (by rw [heq])⟩
      exact revert_after_update photo store _ (fun p => rfl) rfl hget
    · simp at hfail

theorem setStatusToCamera_rollback (port : FsPort) (photo : Photo)
    (store : Store) (fs : FS) (hport : PortErrorsNonempty port)
    (hget : store.get photo.id = some photo)
    (hfail : (setStatusToCamera port photo store fs).result.success = false) :
    (setStatusToCamera port photo store fs).store.get photo.id = some photo ∧
    ∃ e, (setStatusToCamera port photo store fs).result.error = some e ∧
      e ≠ "" := by
  cases hst : photo.status with
  | camera => simp [setStatusToCamera, hst] at hfail
  | completed =>
    cases hcp : photo.completedPath with
    | none =>
      refine ⟨by simpa [setStatusToCamera, hst, hcp] using hget,
        "No completed path available", by simp [setStatusToCamera, hst, hcp],
        by decide⟩
    | some cp =>
      simp only [setStatusToCamera, hst, hcp] at hfail ⊢
      split at hfail
      · rename_i fs1 e heq
        refine ⟨?_, e, by simp, hport.2 _ _ _ (by rw [heq])⟩
        exact revert_after_update photo store _ (fun p => rfl) rfl hget
      · simp at hfail
  | pending =>
    cases hpp : photo.pendingPath with
    | none =>
      refine ⟨by simpa [setStatusToCamera, hst, hpp] using hget,
        "No pending path available", by simp [setStatusToCamera, hst, hpp],
        by decide⟩
    | some pp =>
      simp only [setStatusToCamera, hst, hpp] at hfail ⊢
      split at hfail
      · rename_i fs1 e heq
        refine ⟨?_, e, by simp, hport.2 _ _ _ (by rw [heq])⟩
        exact revert_after_update photo store _ (fun p => rfl) rfl hget
      · simp at hfail

theorem setStatusToCompleted_rollback (port : FsPort) (photo : Photo)
    (store : Store) (fs : FS) (hport : PortErrorsNonempty port)
    (hget : store.get photo.id = some photo)
    (hfail : (setStatusToCompleted port photo store fs).result.success = false) :
    (setStatusToCompleted port photo store fs).store.get photo.id = some photo ∧
    ∃ e, (setStatusToCompleted port photo store fs).result.error = some e ∧
      e ≠ "" := by
  cases hst : photo.status with
  | completed => simp [setStatusToCompleted, hst] at hfail
  | camera =>
    simp only [setStatusToCompleted, hst] at hfail ⊢
    split at hfail
    · rename_i fs1 e heq
      refine ⟨?_, "Failed to complete from MediaStore: " ++ e, by simp,
        append_left_ne_empty _ _ (by decide)⟩
      exact revert_after_update photo store _ (fun p => rfl) rfl hget
    · simp at hfail
  | pending =>
    simp only [setStatusToCompleted, hst] at hfail ⊢
    split at hfail
    · rename_i fs1 e heq
      refine ⟨?_, e, by simp, hport.1 _ _ _ _ (by rw [heq])⟩
      exact revert_after_update photo store _ (fun p => rfl) rfl hget
    · rename_i fs1 heq
      split at hfail
      · rename_i e heq2
        refine ⟨?_, e, by simp,
          runDeletes_error_nonempty port hport.2 _ _ _ heq2⟩
        exact revert_after_update photo store _ (fun p => rfl) rfl hget
      · simp at hfail

/-- C1: for each of the three transitions, when the call fails (a thrown
file operation or a missing-precondition abort) the record is restored to
its exact pre-call state (in particular `status`, `pendingPath` and
`completedPath` equal their pre-call values) and the returned result is
`success = false` with a non-empty error string. -/
theorem failed_transitions_roll_back (port : FsPort) (photo : Photo)
    (store : Store) (fs : FS) (hport : PortErrorsNonempty port)
    (hget : store.get photo.id = some photo) :
    ((setStatusToPending port photo store fs).result.success = false →
      (setStatusToPending port photo store fs).store.get photo.id = some photo ∧
      ∃ e, (setStatusToPending port photo store fs).result.error = some e ∧
        e ≠ "") ∧
    ((setStatusToCamera port photo store fs).result.success = false →
      (setStatusToCamera port photo store fs).store.get photo.id = some photo ∧
      ∃ e, (setStatusToCamera port photo store fs).result.error = some e ∧
        e ≠ "") ∧
    ((setStatusToCompleted port photo store fs).result.success = false →
      (setStatusToCompleted port photo store fs).store.get photo.id = some photo ∧
      ∃ e, (setStatusToCompleted port photo store fs).result.error = some e ∧
        e ≠ "") :=
  ⟨setStatusToPending_rollback port photo store fs hport hget,
   setStatusToCamera_rollback port photo store fs hport hget,
   setStatusToCompleted_rollback port photo store fs hport hget⟩

/-- C1 witness: on a port whose copy throws, marking a camera record as
pending fails, restores the record and reports a non-empty error. -/
theorem failed_transitions_roll_back_witness :
    (setStatusToPending failPort samplePhotoCamera [samplePhotoCamera]
        ⟨[]⟩).result.success = false ∧
    (setStatusToPending failPort samplePhotoCamera [samplePhotoCamera]
        ⟨[]⟩).store.get samplePhotoCamera.id = some samplePhotoCamera ∧
    ∃ e, (setStatusToPending failPort samplePhotoCamera [samplePhotoCamera]
        ⟨[]⟩).result.error = some e ∧ e ≠ "" := by
  have hp : PortErrorsNonempty failPort := by
    constructor
    · intro fs src dst e h
      simp [failPort] at h
      subst h
      decide
    · intro fs p e h
      simp [failPort] at h
      subst h
      decide
  have hfail : (setStatusToPending failPort samplePhotoCamera
      [samplePhotoCamera] ⟨[]⟩).result.success = false := by decide
  have h := (failed_transitions_roll_back failPort samplePhotoCamera
    [samplePhotoCamera] ⟨[]⟩ hp (by decide)).1 hfail
  exact ⟨hfail, h.1, h.2⟩

/-! ## C10: pending→camera deletes only the recorded pending file -/

/-- C10: with a well-behaved filesystem, reverting a pending record to
camera attempts exactly one delete — of the path stored in
`pendingPath` — removes exactly the entries at that path, and leaves every
other file (in particular every version-suffixed sibling) untouched. -/
theorem pending_to_camera_deletes_only_pending_file (photo : Photo)
    (store : Store) (fs : FS) (pp : String) (hst : photo.status = .pending)
    (hpp : photo.pendingPath = some pp)
    (hex : fs.files.any (fun pr => decide (pr.1 = pp)) = true) :
    (setStatusToCamera goodPort photo store fs).result.success = true ∧
    (setStatusToCamera goodPort photo store fs).ops = [.del pp] ∧
    (setStatusToCamera goodPort photo store fs).fs.files =
      fs.files.filter (fun e => !decide (e.1 = pp)) ∧
    (∀ pr ∈ fs.files, pr.1 ≠ pp →
      pr ∈ (setStatusToCamera goodPort photo store fs).fs.files) ∧
    (setStatusToCamera goodPort photo store fs).store =
      store.update photo.id (fun d =>
        { d with status := .camera, pendingPath := none }) := by
  have hdel : goodPort.deleteFile fs pp =
      (⟨fs.files.filter (fun e => !decide (e.1 = pp))⟩, none) := by
    simp [goodPort, goodDelete, hex]
  simp only [setStatusToCamera, hst, hpp, hdel]
  refine ⟨trivial, trivial, trivial, ?_, trivial⟩
  intro pr hpr hne
  exact List.mem_filter.mpr ⟨hpr, by simp [hne]⟩

/-- C10 witness: deleting the recorded pending file of a concrete record
leaves its `~2` sibling in place. -/
theorem pending_to_camera_deletes_only_pending_file_witness :
    samplePhotoPending.status = .pending ∧
    samplePhotoPending.pendingPath =
      some "Pictures/PhotoTriage/Pending/IMG_5.jpg" ∧
    (setStatusToCamera goodPort samplePhotoPending [samplePhotoPending]
        ⟨[("Pictures/PhotoTriage/Pending/IMG_5.jpg", "orig"),
          ("Pictures/PhotoTriage/Pending/IMG_5~2.jpg", "edit")]⟩).result.success
      = true ∧
    (setStatusToCamera goodPort samplePhotoPending [samplePhotoPending]
        ⟨[("Pictures/PhotoTriage/Pending/IMG_5.jpg", "orig"),
          ("Pictures/PhotoTriage/Pending/IMG_5~2.jpg", "edit")]⟩).ops =
      [.del "Pictures/PhotoTriage/Pending/IMG_5.jpg"] ∧
    ("Pictures/PhotoTriage/Pending/IMG_5~2.jpg", "edit") ∈
      (setStatusToCamera goodPort samplePhotoPending [samplePhotoPending]
        ⟨[("Pictures/PhotoTriage/Pending/IMG_5.jpg", "orig"),
          ("Pictures/PhotoTriage/Pending/IMG_5~2.jpg", "edit")]⟩).fs.files := by
  have h := pending_to_camera_deletes_only_pending_file samplePhotoPending
    [samplePhotoPending]
    ⟨[("Pictures/PhotoTriage/Pending/IMG_5.jpg", "orig"),
      ("Pictures/PhotoTriage/Pending/IMG_5~2.jpg", "edit")]⟩
    "Pictures/PhotoTriage/Pending/IMG_5.jpg" (by decide) (by decide) (by decide)
  refine ⟨by decide, by decide, h.1, h.2.1, ?_⟩
  exact h.2.2.2.1 _ (by decide) (by decide)

/-! ## C2: pending→completed latest-version resolution -/

/-- The version-maximum pick of `Array.reduce`: a member of the candidate
list (or the seed), maximal in version, and positioned after strictly
smaller versions only — i.e. the first occurrence of the maximum wins. -/
theorem foldl_pick_spec (a : String) (l : List String) :
    (l.foldl (fun prev cur =>
        if getVersionNumber cur > getVersionNumber prev then cur else prev) a)
        ∈ a :: l ∧
    getVersionNumber a ≤ getVersionNumber (l.foldl (fun prev cur =>
        if getVersionNumber cur > getVersionNumber prev then cur else prev) a) ∧
    (∀ x ∈ l, getVersionNumber x ≤ getVersionNumber (l.foldl (fun prev cur =>
        if getVersionNumber cur > getVersionNumber prev then cur else prev) a)) ∧
    ∃ pre post, a :: l = pre ++ (l.foldl (fun prev cur =>
        if getVersionNumber cur > getVersionNumber prev then cur else prev) a)
        :: post ∧
      ∀ x ∈ pre, getVersionNumber x < getVersionNumber (l.foldl (fun prev cur =>
        if getVersionNumber cur > getVersionNumber prev then cur else prev) a) := by
  induction l generalizing a with
  | nil =>
    refine ⟨List.mem_singleton.mpr rfl, le_refl _, by simp, [], [], rfl, by simp⟩
  | cons c t ih =>
    by_cases h : getVersionNumber c > getVersionNumber a
    · obtain ⟨hmem, hac, hall, pre, post, hdec, hpre⟩ := ih c
      simp only [List.foldl_cons, if_pos h]
      set r := t.foldl (fun prev cur =>
        if getVersionNumber cur > getVersionNumber prev then cur else prev) c
        with hr
      refine ⟨?_, ?_, ?_, a :: pre, post, ?_, ?_⟩
      · rcases List.mem_cons.mp hmem with h1 | h1
        · rw [h1]; exact List.mem_cons_of_mem _ (List.mem_cons_self _ _)
        · exact List.mem_cons_of_mem _ (List.mem_cons_of_mem _ h1)
      · exact le_of_lt (lt_of_lt_of_le h hac)
      · intro x hx
        rcases List.mem_cons.mp hx with h1 | h1
        · rw [h1]; exact hac
        · exact hall x h1
      · rw [List.cons_append, ← hdec]
      · intro x hx
        rcases List.mem_cons.mp hx with h1 | h1
        · rw [h1]; exact lt_of_lt_of_le h hac
        · exact hpre x h1
    · obtain ⟨hmem, haa, hall, pre, post, hdec, hpre⟩ := ih a
      simp only [List.foldl_cons, if_neg h]
      set r := t.foldl (fun prev cur =>
        if getVersionNumber cur > getVersionNumber prev then cur else prev) a
        with hr
      have hca : getVersionNumber c ≤ getVersionNumber a := Nat.not_lt.mp h
      refine ⟨?_, haa, ?_, ?_⟩
      · rcases List.mem_cons.mp hmem with h1 | h1
        · rw [h1]; exact List.mem_cons_self _ _
        · exact List.mem_cons_of_mem _ (List.mem_cons_of_mem _ h1)
      · intro x hx
        rcases List.mem_cons.mp hx with h1 | h1
        · rw [h1]; exact le_trans hca haa
        · exact hall x h1
      · cases pre with
        | nil =>
          rw [List.nil_append] at hdec
          have h1 : a = r := (List.cons.inj hdec).1
          exact ⟨[], c :: t, by rw [List.nil_append, ← h1], by simp⟩
        | cons q pre2 =>
          rw [List.cons_append] at hdec
          have hqa : a = q := (List.cons.inj hdec).1
          have ht : t = pre2 ++ r :: post := (List.cons.inj hdec).2
          refine ⟨a :: c :: pre2, post, ?_, ?_⟩
          · conv_lhs => rw [ht]
            simp [List.cons_append]
          · intro x hx
            have haR : getVersionNumber a < getVersionNumber r := by
              refine hpre a ?_
              rw [hqa]
              exact List.mem_cons_self _ _
            rcases List.mem_cons.mp hx with h1 | h1
            · rw [h1]; exact haR
            · rcases List.mem_cons.mp h1 with h2 | h2
              · rw [h2]; exact lt_of_le_of_lt hca haR
              · exact hpre x (List.mem_cons_of_mem _ h2)

/-- `latestVersionFile` on a non-empty match list: a member, of maximal
version, preceded only by strictly smaller versions (first maximum wins);
on the empty list it is the original name. -/
theorem latestVersionFile_spec (orig : String) (L : List String) :
    (L = [] → latestVersionFile orig L = orig) ∧
    (L ≠ [] →
      latestVersionFile orig L ∈ L ∧
      (∀ x ∈ L, getVersionNumber x ≤
        getVersionNumber (latestVersionFile orig L)) ∧
      ∃ pre post, L = pre ++ latestVersionFile orig L :: post ∧
        ∀ x ∈ pre, getVersionNumber x <
          getVersionNumber (latestVersionFile orig L)) := by
  cases L with
  | nil =>
    constructor
    · intro _
      rfl
    · intro h
      exact absurd rfl h
  | cons m ms =>
    constructor
    · intro h
      cases h
    intro _
    obtain ⟨hmem, hm, hall, pre, post, hdec, hpre⟩ := foldl_pick_spec m ms
    refine ⟨hmem, ?_, pre, post, hdec, hpre⟩
    intro x hx
    rcases List.mem_cons.mp hx with h1 | h1
    · rw [h1]; exact hm
    · exact hall x h1

theorem dropLeading_spec (a : List Char) :
    ∀ b r, dropLeading a b = some r → b = a ++ r := by
  induction a with
  | nil =>
    intro b r h
    simp [dropLeading] at h
    rw [h, List.nil_append]
  | cons x xs ih =>
    intro b r h
    cases b with
    | nil => simp [dropLeading] at h
    | cons y ys =>
      by_cases hxy : x = y
      · subst hxy
        simp [dropLeading] at h
        rw [List.cons_append, ih ys r h]
      · simp [dropLeading, hxy] at h

theorem entryName_spec (folder path n : String)
    (h : entryName folder path = some n) : path = folder ++ "/" ++ n := by
  unfold entryName at h
  cases hd : dropLeading (folder ++ "/").data path.data with
  | none => rw [hd] at h; cases h
  | some rest =>
    rw [hd] at h
    dsimp only at h
    by_cases hre : (rest.isEmpty || rest.contains '/') = true
    · rw [if_pos hre] at h; cases h
    · rw [if_neg hre] at h
      have hn : String.mk rest = n := Option.some.inj h
      apply String.ext
      rw [show folder ++ "/" ++ n = (folder ++ "/") ++ n from rfl,
        String.data_append, ← hn]
      exact dropLeading_spec _ _ _ hd

theorem mem_goodReaddir (fs : FS) (folder n : String)
    (h : n ∈ goodReaddir fs folder) :
    ∃ d, (folder ++ "/" ++ n, d) ∈ fs.files := by
  obtain ⟨pr, hpr, he⟩ := List.mem_filterMap.mp h
  refine ⟨pr.2, ?_⟩
  rw [← entryName_spec folder pr.1 n he]
  exact hpr

theorem goodReaddir_nodup (fs : FS) (folder : String)
    (hnd : (fs.files.map Prod.fst).Nodup) : (goodReaddir fs folder).Nodup := by
  unfold goodReaddir
  revert hnd
  generalize fs.files = l
  induction l with
  | nil => intro _; simp
  | cons pr t ih =>
    intro hnd
    rw [List.map_cons, List.nodup_cons] at hnd
    rw [List.filterMap_cons]
    cases he : entryName folder pr.1 with
    | none => exact ih hnd.2
    | some n =>
      rw [List.nodup_cons]
      refine ⟨?_, ih hnd.2⟩
      intro hn
      obtain ⟨pr2, hpr2, he2⟩ := List.mem_filterMap.mp hn
      have h1 : pr.1 = folder ++ "/" ++ n := entryName_spec folder pr.1 n he
      have h2 : pr2.1 = folder ++ "/" ++ n := entryName_spec folder pr2.1 n he2
      exact hnd.1 (h1 ▸ h2 ▸ List.mem_map_of_mem Prod.fst hpr2)

theorem find_entry_of_mem (files : List (String × String))
    (hnd : (files.map Prod.fst).Nodup) (p c : String) (h : (p, c) ∈ files) :
    files.find? (fun pr => decide (pr.1 = p)) = some (p, c) := by
  induction files with
  | nil => cases h
  | cons e t ih =>
    rw [List.map_cons, List.nodup_cons] at hnd
    by_cases hep : e.1 = p
    · rcases List.mem_cons.mp h with h1 | h1
      · rw [← h1] at hep ⊢
        exact List.find?_cons_of_pos t (by simp)
      · exact absurd (hep ▸ List.mem_map_of_mem Prod.fst h1 :
          e.1 ∈ t.map Prod.fst) (by simpa using hnd.1)
    · have h1 : (p, c) ∈ t := by
        rcases List.mem_cons.mp h with h2 | h2
        · exact absurd (congrArg Prod.fst h2).symm hep
        · exact h2
      rw [List.find?_cons_of_neg t (by simpa using hep)]
      exact ih hnd.2 h1

theorem string_append_cancel (a x y : String) (h : a ++ x = a ++ y) : x = y := by
  apply String.ext
  have h2 := congrArg String.data h
  rw [String.data_append, String.data_append] at h2
  exact List.append_cancel_left h2

theorem pending_path_ne_completed_path (a b : String) :
    pendingFolder ++ "/" ++ a ≠ completedFolder ++ "/" ++ b := by
  intro h
  have hl : (pendingFolder ++ "/" ++ a).data[21]? = some 'P' := by
    rw [show pendingFolder ++ "/" ++ a = (pendingFolder ++ "/") ++ a from rfl,
      String.data_append, List.getElem?_append, if_pos (by decide)]
    decide
  have hc : (completedFolder ++ "/" ++ b).data[21]? = some 'C' := by
    rw [show completedFolder ++ "/" ++ b = (completedFolder ++ "/") ++ b from rfl,
      String.data_append, List.getElem?_append, if_pos (by decide)]
    decide
  rw [h, hc] at hl
  cases hl

theorem runDeletes_good (ps : List String) (fs : FS) (hnd : ps.Nodup)
    (hex : ∀ p ∈ ps, ∃ d, (p, d) ∈ fs.files) :
    runDeletes goodPort ps fs =
      (⟨fs.files.filter (fun e => !decide (e.1 ∈ ps))⟩, ps.map FileOp.del,
        none) := by
  induction ps generalizing fs with
  | nil =>
    show (fs, [], none) = _
    simp
  | cons p t ih =>
    obtain ⟨d, hd⟩ := hex p (List.mem_cons_self _ _)
    have hdel : goodPort.deleteFile fs p =
        (⟨fs.files.filter (fun e => !decide (e.1 = p))⟩, none) := by
      have hany : fs.files.any (fun pr => decide (pr.1 = p)) = true :=
        List.any_eq_true.mpr ⟨(p, d), hd, by simp⟩
      simp [goodPort, goodDelete, hany]
    rw [List.nodup_cons] at hnd
    have hex2 : ∀ q ∈ t, ∃ d2, (q, d2) ∈
        (FS.mk (fs.files.filter (fun e => !decide (e.1 = p)))).files := by
      intro q hq
      obtain ⟨d2, hd2⟩ := hex q (List.mem_cons_of_mem _ hq)
      refine ⟨d2, List.mem_filter.mpr ⟨hd2, ?_⟩⟩
      have : q ≠ p := fun he => hnd.1 (he ▸ hq)
      simp [this]
    show (match goodPort.deleteFile fs p with
      | (fs1, some e) => (fs1, [FileOp.del p], some e)
      | (fs1, none) =>
        let r := runDeletes goodPort t fs1
        (r.1, FileOp.del p :: r.2.1, r.2.2)) = _
    rw [hdel]
    dsimp only
    rw [ih _ hnd.2 hex2]
    dsimp only
    rw [List.filter_filter]
    refine Prod.ext ?_ (Prod.ext rfl rfl)
    show FS.mk _ = FS.mk _
    refine congrArg FS.mk ?_
    refine List.filter_congr ?_
    intro e _
    by_cases h1 : e.1 = p <;> by_cases h2 : e.1 ∈ t <;>
      simp [h1, h2, List.mem_cons]

/-- C2 (amended): completing a pending record re-scans the pending folder,
selects among the matching filenames the first one of maximum version
(the unsuffixed original only when nothing matches), copies that file's
content into the completed folder under the record's `originalName`,
deletes every matching pending file and nothing else, and updates the
record. -/
theorem pending_to_completed_functional (photo : Photo) (store : Store)
    (fs : FS) (c : String) (matching : List String) (latest cp lp : String)
    (hst : photo.status = .pending)
    (hnd : (fs.files.map Prod.fst).Nodup)
    (hm : matching = pendingMatches goodPort fs photo)
    (hl : latest = latestVersionFile photo.originalName matching)
    (hcp : cp = completedFolder ++ "/" ++ photo.originalName)
    (hlp : lp = pendingFolder ++ "/" ++ latest)
    (hlatest : (lp, c) ∈ fs.files) :
    (setStatusToCompleted goodPort photo store fs).result.success = true ∧
    (setStatusToCompleted goodPort photo store fs).ops =
      FileOp.copy lp cp ::
        matching.map (fun m => FileOp.del (pendingFolder ++ "/" ++ m)) ∧
    (cp, c) ∈ (setStatusToCompleted goodPort photo store fs).fs.files ∧
    (∀ m ∈ matching, ∀ d, (pendingFolder ++ "/" ++ m, d) ∉
      (setStatusToCompleted goodPort photo store fs).fs.files) ∧
    (∀ pr ∈ fs.files, (∀ m ∈ matching, pr.1 ≠ pendingFolder ++ "/" ++ m) →
      pr.1 ≠ cp →
      pr ∈ (setStatusToCompleted goodPort photo store fs).fs.files) ∧
    (setStatusToCompleted goodPort photo store fs).store =
      store.update photo.id (fun d =>
        { d with status := .completed, completedPath := some cp,
                 pendingPath := none }) ∧
    (matching = [] → latest = photo.originalName) ∧
    (matching ≠ [] → latest ∈ matching ∧
      (∀ x ∈ matching, getVersionNumber x ≤ getVersionNumber latest) ∧
      ∃ pre post, matching = pre ++ latest :: post ∧
        ∀ x ∈ pre, getVersionNumber x < getVersionNumber latest) := by
  subst hm hl hcp hlp
  have hfind := find_entry_of_mem fs.files hnd _ c hlatest
  have hcopy : goodPort.copy fs
      (pendingFolder ++ "/" ++ latestVersionFile photo.originalName
        (pendingMatches goodPort fs photo))
      (completedFolder ++ "/" ++ photo.originalName) =
      (⟨fs.files.filter (fun e =>
          !decide (e.1 = completedFolder ++ "/" ++ photo.originalName)) ++
        [(completedFolder ++ "/" ++ photo.originalName, c)]⟩, none) := by
    show goodCopy fs _ _ = _
    unfold goodCopy
    rw [hfind]
  have hPnd : (pendingMatches goodPort fs photo).Nodup :=
    ((goodReaddir_nodup fs pendingFolder hnd).filter _).filter _
  have hinj : Function.Injective (fun m : String =>
      pendingFolder ++ "/" ++ m) := by
    intro x y hxy
    exact string_append_cancel (pendingFolder ++ "/") x y hxy
  have hPnodup := hPnd.map hinj
  have hmem_fs : ∀ m ∈ pendingMatches goodPort fs photo,
      ∃ d, (pendingFolder ++ "/" ++ m, d) ∈ fs.files := by
    intro m hm2
    apply mem_goodReaddir
    exact List.mem_of_mem_filter (List.mem_of_mem_filter hm2)
  have hexdel : ∀ q ∈ (pendingMatches goodPort fs photo).map
      (fun m => pendingFolder ++ "/" ++ m),
      ∃ d, (q, d) ∈ (FS.mk (fs.files.filter (fun e =>
          !decide (e.1 = completedFolder ++ "/" ++ photo.originalName)) ++
        [(completedFolder ++ "/" ++ photo.originalName, c)])).files := by
    intro q hq
    obtain ⟨m, hm2, rfl⟩ := List.mem_map.mp hq
    obtain ⟨d, hd⟩ := hmem_fs m hm2
    refine ⟨d, List.mem_append_left _ (List.mem_filter.mpr ⟨hd, ?_⟩)⟩
    simp [pending_path_ne_completed_path]
  have hrun := runDeletes_good _ _ hPnodup hexdel
  have hsel := latestVersionFile_spec photo.originalName
    (pendingMatches goodPort fs photo)
  simp only [setStatusToCompleted, hst, hcopy, hrun]
  refine ⟨trivial, ?_, ?_, ?_, ?_, trivial, hsel.1, hsel.2⟩
  · simp [List.map_map, Function.comp]
  · refine List.mem_filter.mpr
      ⟨List.mem_append_right _ (List.mem_singleton.mpr rfl), ?_⟩
    simp only [Bool.not_eq_true']
    refine decide_eq_false ?_
    intro hc2
    obtain ⟨m, _, hme⟩ := List.mem_map.mp hc2
    exact pending_path_ne_completed_path m photo.originalName hme
  · intro m hm2 d hmem
    have hpred := (List.mem_filter.mp hmem).2
    simp only [Bool.not_eq_true'] at hpred
    exact absurd (List.mem_map_of_mem _ hm2) (of_decide_eq_false hpred)
  · intro pr hpr hnm hncp
    refine List.mem_filter.mpr
      ⟨List.mem_append_left _ (List.mem_filter.mpr ⟨hpr, by simp [hncp]⟩), ?_⟩
    simp only [Bool.not_eq_true']
    refine decide_eq_false ?_
    intro hc2
    obtain ⟨m, hm2, hme⟩ := List.mem_map.mp hc2
    exact hnm m hm2 hme.symm

/-- C2 counterexample: every matching pending filename carries version 0,
yet the completion copies from the suffixed `IMG_1~0.jpg`, not from the
unsuffixed original filename `IMG_1.jpg` (which does not even exist) —
`Array.reduce` keeps the first match, the original is used only when
nothing matches at all. -/
theorem completed_zero_version_selection_counterexample :
    pendingMatches goodPort cexFsZero cexPhoto = ["IMG_1~0.jpg"] ∧
    (∀ m ∈ pendingMatches goodPort cexFsZero cexPhoto,
      getVersionNumber m = 0) ∧
    (setStatusToCompleted goodPort cexPhoto [cexPhoto] cexFsZero).ops.head? =
      some (.copy "Pictures/PhotoTriage/Pending/IMG_1~0.jpg"
        "Pictures/PhotoTriage/Completed/IMG_1.jpg") ∧
    (setStatusToCompleted goodPort cexPhoto [cexPhoto]
      cexFsZero).result.success = true ∧
    "IMG_1~0.jpg" ≠ cexPhoto.originalName := by
  decide

/-- C2 witness: completing `IMG_1` over pending files `IMG_1.jpg`,
`IMG_1~1.jpg`, `IMG_1~3.jpg`, `IMG_1~2.jpg` succeeds, copies the content
of `IMG_1~3.jpg` into `completed/IMG_1.jpg` and deletes all four pending
files. -/
theorem pending_to_completed_functional_witness :
    (setStatusToCompleted goodPort cexPhoto [cexPhoto]
      wardFs).result.success = true ∧
    ("Pictures/PhotoTriage/Completed/IMG_1.jpg", "v3") ∈
      (setStatusToCompleted goodPort cexPhoto [cexPhoto] wardFs).fs.files ∧
    (∀ m ∈ ["IMG_1.jpg", "IMG_1~1.jpg", "IMG_1~3.jpg", "IMG_1~2.jpg"], ∀ d,
      ("Pictures/PhotoTriage/Pending/" ++ m, d) ∉
        (setStatusToCompleted goodPort cexPhoto [cexPhoto] wardFs).fs.files) := by
  have h := pending_to_completed_functional cexPhoto [cexPhoto] wardFs "v3"
    ["IMG_1.jpg", "IMG_1~1.jpg", "IMG_1~3.jpg", "IMG_1~2.jpg"] "IMG_1~3.jpg"
    "Pictures/PhotoTriage/Completed/IMG_1.jpg"
    "Pictures/PhotoTriage/Pending/IMG_1~3.jpg"
    (by decide) (by decide) (by decide) (by decide) (by decide) (by decide)
    (by decide)
  exact ⟨h.1, h.2.2.1, h.2.2.2.1⟩

/-! ## Reconciler loop lemmas -/

theorem processCameraFile_get_ne (host : HostPort) (s : Store) (f j : String)
    (h : getBaseFilename f ≠ j) :
    (processCameraFile host s f).get j = s.get j := by
  unfold processCameraFile
  cases hg : s.get (getBaseFilename f) with
  | some p =>
    simp only [hg]
    rw [Store.get_update' s _ _ j]
    · rw [if_neg h]
    · intro p
      rfl
  | none =>
    simp only [hg]
    cases hsj : s.get j with
    | some q =>
      rw [Store.get_insert_of_isSome s _ j (by rw [hsj]; rfl), hsj]
    | none =>
      rw [Store.get_insert_of_none s _ j hsj, if_neg h]

theorem processPendingFile_get_ne (host : HostPort) (s : Store) (f j : String)
    (h : getBaseFilename f ≠ j) :
    (processPendingFile host s f).get j = s.get j := by
  unfold processPendingFile
  cases hg : s.get (getBaseFilename f) with
  | some p =>
    simp only [hg]
    rw [Store.get_update' s _ _ j]
    · rw [if_neg h]
    · intro p
      rfl
  | none =>
    simp only [hg]
    cases hsj : s.get j with
    | some q =>
      rw [Store.get_insert_of_isSome s _ j (by rw [hsj]; rfl), hsj]
    | none =>
      rw [Store.get_insert_of_none s _ j hsj, if_neg h]

theorem processCompletedFile_get_ne (host : HostPort) (s : Store)
    (f j : String) (h : getBaseFilename f ≠ j) :
    (processCompletedFile host s f).get j = s.get j := by
  unfold processCompletedFile
  cases hg : s.get (getBaseFilename f) with
  | some p =>
    simp only [hg]
    rw [Store.get_update' s _ _ j]
    · rw [if_neg h]
    · intro p
      rfl
  | none =>
    simp only [hg]
    cases hsj : s.get j with
    | some q =>
      rw [Store.get_insert_of_isSome s _ j (by rw [hsj]; rfl), hsj]
    | none =>
      rw [Store.get_insert_of_none s _ j hsj, if_neg h]

theorem processCameraFile_get_self (host : HostPort) (s : Store) (f : String) :
    ∃ r, (processCameraFile host s f).get (getBaseFilename f) = some r ∧
      r.status = .camera ∧
      r.uri = host.uriOf (cameraFolder ++ "/" ++ f) ∧
      r.cameraPath = cameraFolder ++ "/" ++ f := by
  unfold processCameraFile
  cases hg : s.get (getBaseFilename f) with
  | some p =>
    simp only [hg]
    rw [Store.get_update' s _ _ (getBaseFilename f)]
    · rw [if_pos rfl, hg]
      exact ⟨_, rfl, rfl, rfl, rfl⟩
    · intro p
      rfl
  | none =>
    simp only [hg]
    rw [Store.get_insert_of_none s _ _ hg, if_pos rfl]
    exact ⟨_, rfl, rfl, rfl, rfl⟩

theorem processPendingFile_get_self (host : HostPort) (s : Store) (f : String) :
    ∃ r, (processPendingFile host s f).get (getBaseFilename f) = some r ∧
      r.status = .pending ∧
      r.uri = host.uriOf (pendingFolder ++ "/" ++ f) ∧
      r.pendingPath = some (pendingFolder ++ "/" ++ f) := by
  unfold processPendingFile
  cases hg : s.get (getBaseFilename f) with
  | some p =>
    simp only [hg]
    rw [Store.get_update' s _ _ (getBaseFilename f)]
    · rw [if_pos rfl, hg]
      exact ⟨_, rfl, rfl, rfl, rfl⟩
    · intro p
      rfl
  | none =>
    simp only [hg]
    rw [Store.get_insert_of_none s _ _ hg, if_pos rfl]
    exact ⟨_, rfl, rfl, rfl, rfl⟩

theorem processCompletedFile_get_self (host : HostPort) (s : Store)
    (f : String) :
    ∃ r, (processCompletedFile host s f).get (getBaseFilename f) = some r ∧
      r.status = .completed ∧
      r.uri = host.uriOf (completedFolder ++ "/" ++ f) ∧
      r.completedPath = some (completedFolder ++ "/" ++ f) := by
  unfold processCompletedFile
  cases hg : s.get (getBaseFilename f) with
  | some p =>
    simp only [hg]
    rw [Store.get_update' s _ _ (getBaseFilename f)]
    · rw [if_pos rfl, hg]
      exact ⟨_, rfl, rfl, rfl, rfl⟩
    · intro p
      rfl
  | none =>
    simp only [hg]
    rw [Store.get_insert_of_none s _ _ hg, if_pos rfl]
    exact ⟨_, rfl, rfl, rfl, rfl⟩

theorem foldl_processCamera_not_mem (host : HostPort) (L : List String)
    (s : Store) (j : String) (h : ∀ g ∈ L, getBaseFilename g ≠ j) :
    (L.foldl (processCameraFile host) s).get j = s.get j := by
  induction L generalizing s with
  | nil => rfl
  | cons f t ih =>
    rw [List.foldl_cons, ih _ (fun g hg => h g (List.mem_cons_of_mem _ hg))]
    exact processCameraFile_get_ne host s f j (h f (List.mem_cons_self _ _))

theorem foldl_processPending_not_mem (host : HostPort) (L : List String)
    (s : Store) (j : String) (h : ∀ g ∈ L, getBaseFilename g ≠ j) :
    (L.foldl (processPendingFile host) s).get j = s.get j := by
  induction L generalizing s with
  | nil => rfl
  | cons f t ih =>
    rw [List.foldl_cons, ih _ (fun g hg => h g (List.mem_cons_of_mem _ hg))]
    exact processPendingFile_get_ne host s f j (h f (List.mem_cons_self _ _))

theorem foldl_processCompleted_not_mem (host : HostPort) (L : List String)
    (s : Store) (j : String) (h : ∀ g ∈ L, getBaseFilename g ≠ j) :
    (L.foldl (processCompletedFile host) s).get j = s.get j := by
  induction L generalizing s with
  | nil => rfl
  | cons f t ih =>
    rw [List.foldl_cons, ih _ (fun g hg => h g (List.mem_cons_of_mem _ hg))]
    exact processCompletedFile_get_ne host s f j (h f (List.mem_cons_self _ _))

theorem foldl_processCamera_mem (host : HostPort) (L : List String)
    (s : Store) (j : String) (h : ∃ g ∈ L, getBaseFilename g = j) :
    ∃ r g, g ∈ L ∧ getBaseFilename g = j ∧
      (L.foldl (processCameraFile host) s).get j = some r ∧
      r.status = .camera ∧
      r.uri = host.uriOf (cameraFolder ++ "/" ++ g) ∧
      r.cameraPath = cameraFolder ++ "/" ++ g := by
  induction L generalizing s with
  | nil =>
    obtain ⟨g, hg, _⟩ := h
    cases hg
  | cons f t ih =>
    rw [List.foldl_cons]
    by_cases hmem : ∃ g ∈ t, getBaseFilename g = j
    · obtain ⟨r, g, hg, hgj, hget, h1, h2, h3⟩ :=
        ih (processCameraFile host s f) hmem
      exact ⟨r, g, List.mem_cons_of_mem _ hg, hgj, hget, h1, h2, h3⟩
    · obtain ⟨g, hg, hgj⟩ := h
      have hfj : getBaseFilename f = j := by
        rcases List.mem_cons.mp hg with h1 | h1
        · rw [← h1]; exact hgj
        · exact absurd ⟨g, h1, hgj⟩ hmem
      have hnot : ∀ g2 ∈ t, getBaseFilename g2 ≠ j := by
        intro g2 hg2 he
        exact hmem ⟨g2, hg2, he⟩
      obtain ⟨r, hget, h1, h2, h3⟩ := processCameraFile_get_self host s f
      refine ⟨r, f, List.mem_cons_self _ _, hfj, ?_, h1, h2, h3⟩
      rw [foldl_processCamera_not_mem host t _ j hnot, ← hfj]
      exact hget

theorem foldl_processPending_mem (host : HostPort) (L : List String)
    (s : Store) (j : String) (h : ∃ g ∈ L, getBaseFilename g = j) :
    ∃ r g, g ∈ L ∧ getBaseFilename g = j ∧
      (L.foldl (processPendingFile host) s).get j = some r ∧
      r.status = .pending ∧
      r.uri = host.uriOf (pendingFolder ++ "/" ++ g) ∧
      r.pendingPath = some (pendingFolder ++ "/" ++ g) := by
  induction L generalizing s with
  | nil =>
    obtain ⟨g, hg, _⟩ := h
    cases hg
  | cons f t ih =>
    rw [List.foldl_cons]
    by_cases hmem : ∃ g ∈ t, getBaseFilename g = j
    · obtain ⟨r, g, hg, hgj, hget, h1, h2, h3⟩ :=
        ih (processPendingFile host s f) hmem
      exact ⟨r, g, List.mem_cons_of_mem _ hg, hgj, hget, h1, h2, h3⟩
    · obtain ⟨g, hg, hgj⟩ := h
      have hfj : getBaseFilename f = j := by
        rcases List.mem_cons.mp hg with h1 | h1
        · rw [← h1]; exact hgj
        · exact absurd ⟨g, h1, hgj⟩ hmem
      have hnot : ∀ g2 ∈ t, getBaseFilename g2 ≠ j := by
        intro g2 hg2 he
        exact hmem ⟨g2, hg2, he⟩
      obtain ⟨r, hget, h1, h2, h3⟩ := processPendingFile_get_self host s f
      refine ⟨r, f, List.mem_cons_self _ _, hfj, ?_, h1, h2, h3⟩
      rw [foldl_processPending_not_mem host t _ j hnot, ← hfj]
      exact hget

theorem foldl_processCompleted_mem (host : HostPort) (L : List String)
    (s : Store) (j : String) (h : ∃ g ∈ L, getBaseFilename g = j) :
    ∃ r g, g ∈ L ∧ getBaseFilename g = j ∧
      (L.foldl (processCompletedFile host) s).get j = some r ∧
      r.status = .completed ∧
      r.uri = host.uriOf (completedFolder ++ "/" ++ g) ∧
      r.completedPath = some (completedFolder ++ "/" ++ g) := by
  induction L generalizing s with
  | nil =>
    obtain ⟨g, hg, _⟩ := h
    cases hg
  | cons f t ih =>
    rw [List.foldl_cons]
    by_cases hmem : ∃ g ∈ t, getBaseFilename g = j
    · obtain ⟨r, g, hg, hgj, hget, h1, h2, h3⟩ :=
        ih (processCompletedFile host s f) hmem
      exact ⟨r, g, List.mem_cons_of_mem _ hg, hgj, hget, h1, h2, h3⟩
    · obtain ⟨g, hg, hgj⟩ := h
      have hfj : getBaseFilename f = j := by
        rcases List.mem_cons.mp hg with h1 | h1
        · rw [← h1]; exact hgj
        · exact absurd ⟨g, h1, hgj⟩ hmem
      have hnot : ∀ g2 ∈ t, getBaseFilename g2 ≠ j := by
        intro g2 hg2 he
        exact hmem ⟨g2, hg2, he⟩
      obtain ⟨r, hget, h1, h2, h3⟩ := processCompletedFile_get_self host s f
      refine ⟨r, f, List.mem_cons_self _ _, hfj, ?_, h1, h2, h3⟩
      rw [foldl_processCompleted_not_mem host t _ j hnot, ← hfj]
      exact hget

/-! ## C3: reconciliation precedence -/

/-- C3: the verbatim-presence filters remove camera filenames present in
the pending or completed listings and pending filenames present in the
completed listing; processing order makes the completed folder win at the
id level (any id appearing in the completed listing ends `completed`,
with its display reference and `completedPath` pointing at a completed
copy), pending wins over camera, and camera applies only when no
higher-precedence folder mentions the id. -/
theorem reconciliation_precedence (host : HostPort) (port : FsPort)
    (store : Store) (fs : FS) :
    (∀ f ∈ cameraListing port fs,
      f ∈ pendingListing port fs ∨ f ∈ completedListing port fs →
      f ∉ cameraProcessedFiles port fs) ∧
    (∀ f ∈ pendingListing port fs, f ∈ completedListing port fs →
      f ∉ pendingProcessedFiles port fs) ∧
    (∀ f ∈ completedListing port fs, ∃ r g, g ∈ completedListing port fs ∧
      getBaseFilename g = getBaseFilename f ∧
      (loadPhotos host port store fs).get (getBaseFilename f) = some r ∧
      r.status = .completed ∧
      r.uri = host.uriOf (completedFolder ++ "/" ++ g) ∧
      r.completedPath = some (completedFolder ++ "/" ++ g)) ∧
    (∀ f ∈ pendingProcessedFiles port fs,
      (∀ g ∈ completedListing port fs,
        getBaseFilename g ≠ getBaseFilename f) →
      ∃ r g, g ∈ pendingProcessedFiles port fs ∧
        getBaseFilename g = getBaseFilename f ∧
        (loadPhotos host port store fs).get (getBaseFilename f) = some r ∧
        r.status = .pending ∧
        r.uri = host.uriOf (pendingFolder ++ "/" ++ g) ∧
        r.pendingPath = some (pendingFolder ++ "/" ++ g)) ∧
    (∀ f ∈ cameraProcessedFiles port fs,
      (∀ g ∈ pendingProcessedFiles port fs,
        getBaseFilename g ≠ getBaseFilename f) →
      (∀ g ∈ completedListing port fs,
        getBaseFilename g ≠ getBaseFilename f) →
      ∃ r g, g ∈ cameraProcessedFiles port fs ∧
        getBaseFilename g = getBaseFilename f ∧
        (loadPhotos host port store fs).get (getBaseFilename f) = some r ∧
        r.status = .camera ∧
        r.uri = host.uriOf (cameraFolder ++ "/" ++ g) ∧
        r.cameraPath = cameraFolder ++ "/" ++ g) := by
  refine ⟨?_, ?_, ?_, ?_, ?_⟩
  · intro f _ hor hmem
    have h2 := (List.mem_filter.mp hmem).2
    simp only [Bool.and_eq_true, Bool.not_eq_true', decide_eq_false_iff_not]
      at h2
    rcases hor with h3 | h3
    · exact h2.1 h3
    · exact h2.2 h3
  · intro f _ hin hmem
    have h2 := (List.mem_filter.mp hmem).2
    simp only [Bool.not_eq_true', decide_eq_false_iff_not] at h2
    exact h2 hin
  · intro f hf
    simp only [loadPhotos]
    exact foldl_processCompleted_mem host _ _ _ ⟨f, hf, rfl⟩
  · intro f hf hnc
    simp only [loadPhotos]
    rw [foldl_processCompleted_not_mem host _ _ _ hnc]
    exact foldl_processPending_mem host _ _ _ ⟨f, hf, rfl⟩
  · intro f hf hnp hnc
    simp only [loadPhotos]
    rw [foldl_processCompleted_not_mem host _ _ _ hnc,
      foldl_processPending_not_mem host _ _ _ hnp]
    exact foldl_processCamera_mem host _ _ _ ⟨f, hf, rfl⟩

/-- C3 witness: with `IMG_1.jpg` in both the camera and completed folders,
the reconciled record for `IMG_1` is completed and its display reference
points at the completed copy. -/
theorem reconciliation_precedence_witness :
    "IMG_1.jpg" ∈ completedListing goodPort bothFoldersFs ∧
    ∃ r g, g ∈ completedListing goodPort bothFoldersFs ∧
      getBaseFilename g = getBaseFilename "IMG_1.jpg" ∧
      (loadPhotos sampleHost goodPort [] bothFoldersFs).get
        (getBaseFilename "IMG_1.jpg") = some r ∧
      r.status = .completed ∧
      r.uri = sampleHost.uriOf (completedFolder ++ "/" ++ g) ∧
      r.completedPath = some (completedFolder ++ "/" ++ g) :=
  ⟨by decide,
   (reconciliation_precedence sampleHost goodPort [] bothFoldersFs).2.2.1
     "IMG_1.jpg" (by decide)⟩

/-! ## C8: display reference vs. status -/

theorem map_uri_update (s : Store) (i : String) (f : Photo → Photo)
    (j : String) (hf : ∀ p, (f p).id = p.id)
    (hfu : ∀ p, (f p).uri = p.uri) :
    ((s.update i f).get j).map Photo.uri = (s.get j).map Photo.uri := by
  rw [Store.get_update s i f hf j]
  by_cases hij : i = j
  · rw [if_pos hij]
    cases hsj : s.get j with
    | none => rfl
    | some p => simp [hfu p]
  · rw [if_neg hij]

theorem map_uri_revert_update (photo : Photo) (store : Store)
    (f : Photo → Photo) (j : String) (hf : ∀ p, (f p).id = p.id)
    (hfu : ∀ p, (f p).uri = p.uri) :
    ((revertPhotoFields photo (store.update photo.id f)).get j).map Photo.uri
      = (store.get j).map Photo.uri := by
  unfold revertPhotoFields
  rw [map_uri_update, map_uri_update]
  · exact hf
  · exact hfu
  · intro p
    rfl
  · intro p
    rfl

theorem setStatusToPending_uri (port : FsPort) (photo : Photo)
    (store : Store) (fs : FS) (j : String) :
    ((setStatusToPending port photo store fs).store.get j).map Photo.uri =
      (store.get j).map Photo.uri := by
  cases hst : photo.status with
  | pending => simp only [setStatusToPending, hst]
  | completed =>
    cases hcp : photo.completedPath with
    | none => simp only [setStatusToPending, hst, hcp]
    | some cp =>
      simp only [setStatusToPending, hst, hcp]
      split
      · exact map_uri_revert_update photo store _ j (by intro p; rfl)
          (by intro p; rfl)
      · split
        · exact map_uri_revert_update photo store _ j (by intro p; rfl)
            (by intro p; rfl)
        · exact map_uri_update store photo.id _ j (by intro p; rfl)
            (by intro p; rfl)
  | camera =>
    simp only [setStatusToPending, hst]
    split
    · exact map_uri_revert_update photo store _ j (by intro p; rfl)
        (by intro p; rfl)
    · exact map_uri_update store photo.id _ j (by intro p; rfl)
        (by intro p; rfl)

theorem setStatusToCamera_uri (port : FsPort) (photo : Photo)
    (store : Store) (fs : FS) (j : String) :
    ((setStatusToCamera port photo store fs).store.get j).map Photo.uri =
      (store.get j).map Photo.uri := by
  cases hst : photo.status with
  | camera => simp only [setStatusToCamera, hst]
  | completed =>
    cases hcp : photo.completedPath with
    | none => simp only [setStatusToCamera, hst, hcp]
    | some cp =>
      simp only [setStatusToCamera, hst, hcp]
      split
      · exact map_uri_revert_update photo store _ j (by intro p; rfl)
          (by intro p; rfl)
      · exact map_uri_update store photo.id _ j (by intro p; rfl)
          (by intro p; rfl)
  | pending =>
    cases hpp : photo.pendingPath with
    | none => simp only [setStatusToCamera, hst, hpp]
    | some pp =>
      simp only [setStatusToCamera, hst, hpp]
      split
      · exact map_uri_revert_update photo store _ j (by intro p; rfl)
          (by intro p; rfl)
      · exact map_uri_update store photo.id _ j (by intro p; rfl)
          (by intro p; rfl)

theorem setStatusToCompleted_uri (port : FsPort) (photo : Photo)
    (store : Store) (fs : FS) (j : String) :
    ((setStatusToCompleted port photo store fs).store.get j).map Photo.uri =
      (store.get j).map Photo.uri := by
  cases hst : photo.status with
  | completed => simp only [setStatusToCompleted, hst]
  | camera =>
    simp only [setStatusToCompleted, hst]
    split
    · exact map_uri_revert_update photo store _ j (by intro p; rfl)
        (by intro p; rfl)
    · exact map_uri_update store photo.id _ j (by intro p; rfl)
        (by intro p; rfl)
  | pending =>
    simp only [setStatusToCompleted, hst]
    split
    · exact map_uri_revert_update photo store _ j (by intro p; rfl)
        (by intro p; rfl)
    · split
      · exact map_uri_revert_update photo store _ j (by intro p; rfl)
          (by intro p; rfl)
      · exact map_uri_update store photo.id _ j (by intro p; rfl)
          (by intro p; rfl)

/-- C8 counterexample: a successful camera→pending transition updates the
status and `pendingPath` but leaves `uri` at the camera display reference
— the record's display reference does not point at the pending copy. -/
theorem display_reference_transition_counterexample :
    samplePhotoCamera.uri = sampleHost.uriOf samplePhotoCamera.cameraPath ∧
    (setStatusToPending goodPort samplePhotoCamera [samplePhotoCamera]
      camOnlyFs).result.success = true ∧
    (setStatusToPending goodPort samplePhotoCamera [samplePhotoCamera]
        camOnlyFs).store.get "IMG_7" =
      some { samplePhotoCamera with
              status := .pending,
              pendingPath := some "Pictures/PhotoTriage/Pending/IMG_7.jpg",
              completedPath := none } ∧
    samplePhotoCamera.uri ≠
      sampleHost.uriOf "Pictures/PhotoTriage/Pending/IMG_7.jpg" := by
  decide

/-- C8 (amended): transitions never change any record's `uri` (the display
reference is refreshed only by reconciliation); a reconciliation pass
leaves every record whose id appears in a processed listing with a `uri`
equal to the display reference of the path field matching its status. -/
theorem display_reference_consistency (host : HostPort) (port : FsPort)
    (photo : Photo) (store : Store) (fs : FS) :
    (∀ j, ((setStatusToPending port photo store fs).store.get j).map
      Photo.uri = (store.get j).map Photo.uri) ∧
    (∀ j, ((setStatusToCamera port photo store fs).store.get j).map
      Photo.uri = (store.get j).map Photo.uri) ∧
    (∀ j, ((setStatusToCompleted port photo store fs).store.get j).map
      Photo.uri = (store.get j).map Photo.uri) ∧
    (∀ id, ((∃ g ∈ cameraProcessedFiles port fs, getBaseFilename g = id) ∨
        (∃ g ∈ pendingProcessedFiles port fs, getBaseFilename g = id) ∨
        (∃ g ∈ completedListing port fs, getBaseFilename g = id)) →
      ∃ r, (loadPhotos host port store fs).get id = some r ∧
        uriConsistent host r) := by
  refine ⟨setStatusToPending_uri port photo store fs,
    setStatusToCamera_uri port photo store fs,
    setStatusToCompleted_uri port photo store fs, ?_⟩
  intro id hid
  by_cases hC : ∃ g ∈ completedListing port fs, getBaseFilename g = id
  · simp only [loadPhotos]
    obtain ⟨r, g, hg, hgj, hget, h1, h2, h3⟩ :=
      foldl_processCompleted_mem host (completedListing port fs)
        ((pendingProcessedFiles port fs).foldl (processPendingFile host)
          ((cameraProcessedFiles port fs).foldl (processCameraFile host)
            store)) id hC
    refine ⟨r, hget, ?_⟩
    simp only [uriConsistent, h1]
    exact ⟨_, h3, h2⟩
  · by_cases hP : ∃ g ∈ pendingProcessedFiles port fs, getBaseFilename g = id
    · simp only [loadPhotos]
      push_neg at hC
      rw [foldl_processCompleted_not_mem host _ _ _ hC]
      obtain ⟨r, g, hg, hgj, hget, h1, h2, h3⟩ :=
        foldl_processPending_mem host (pendingProcessedFiles port fs)
          ((cameraProcessedFiles port fs).foldl (processCameraFile host)
            store) id hP
      refine ⟨r, hget, ?_⟩
      simp only [uriConsistent, h1]
      exact ⟨_, h3, h2⟩
    · have hCam : ∃ g ∈ cameraProcessedFiles port fs,
          getBaseFilename g = id := by
        rcases hid with h | h | h
        · exact h
        · exact absurd h hP
        · exact absurd h hC
      simp only [loadPhotos]
      push_neg at hC hP
      rw [foldl_processCompleted_not_mem host _ _ _ hC,
        foldl_processPending_not_mem host _ _ _ hP]
      obtain ⟨r, g, hg, hgj, hget, h1, h2, h3⟩ :=
        foldl_processCamera_mem host (cameraProcessedFiles port fs) store
          id hCam
      refine ⟨r, hget, ?_⟩
      simp only [uriConsistent, h1]
      rw [h2, h3]

/-- C8 witness: in the two-folder scenario the reconciled `IMG_1` record's
display reference matches its completed status. -/
theorem display_reference_consistency_witness :
    ∃ r, (loadPhotos sampleHost goodPort [] bothFoldersFs).get "IMG_1" =
      some r ∧ uriConsistent sampleHost r :=
  (display_reference_consistency sampleHost goodPort samplePhotoCamera []
    bothFoldersFs).2.2.2 "IMG_1"
    (Or.inr (Or.inr ⟨"IMG_1.jpg", by decide, by decide⟩))

/-! ## C7: permission gating -/

/-- C7 counterexample: with the permission port reporting `denied` on both
check and request, `ensureMediaPermissions` returns `false` — yet
`loadPhotos` (which never consults the permission result) still scans the
folders and inserts a record: scanning and record mutation proceed. -/
theorem permission_gate_counterexample :
    ensureMediaPermissions ⟨.ok .denied, .ok .denied⟩ = false ∧
    ((loadPhotos sampleHost goodPort [] bothFoldersFs).get "IMG_1").isSome
      = true ∧
    (loadPhotos sampleHost goodPort [] bothFoldersFs).length = 1 := by
  decide

/-- C7 (amended): the permission gate surfaces the blocked state as the
boolean `false` and never throws — it returns `true` exactly when the
check, or the follow-up request, reports `granted`; but scanning does not
refuse to proceed: `loadPhotos` reads the folders and writes records
with no reference to the permission result. -/
theorem permission_gate_boolean (sa : StorageAccessPort) (host : HostPort)
    (port : FsPort) (store : Store) (fs : FS) :
    (ensureMediaPermissions sa = true ↔
      sa.checkPermissions = .ok .granted ∨
      (∃ s, sa.checkPermissions = .ok s ∧
        sa.requestPermissions = .ok .granted)) ∧
    (∀ f ∈ completedListing port fs,
      ((loadPhotos host port store fs).get (getBaseFilename f)).isSome
        = true) := by
  constructor
  · cases hc : sa.checkPermissions with
    | error e => simp [ensureMediaPermissions, hc]
    | ok s =>
      cases s with
      | granted => simp [ensureMediaPermissions, hc]
      | denied =>
        cases hr : sa.requestPermissions with
        | error e => simp [ensureMediaPermissions, hc, hr]
        | ok s2 =>
          cases s2 <;> simp [ensureMediaPermissions, hc, hr]
      | prompt =>
        cases hr : sa.requestPermissions with
        | error e => simp [ensureMediaPermissions, hc, hr]
        | ok s2 =>
          cases s2 <;> simp [ensureMediaPermissions, hc, hr]
  · intro f hf
    simp only [loadPhotos]
    obtain ⟨r, g, _, _, hget, _⟩ :=
      foldl_processCompleted_mem host (completedListing port fs)
        ((pendingProcessedFiles port fs).foldl (processPendingFile host)
          ((cameraProcessedFiles port fs).foldl (processCameraFile host)
            store)) (getBaseFilename f) ⟨f, hf, rfl⟩
    rw [hget]
    rfl

/-- C7 witness: a denied check followed by a granted request yields `true`;
with a file in the completed folder, `loadPhotos` produces a record for it
(independently of any permission state). -/
theorem permission_gate_boolean_witness :
    ensureMediaPermissions ⟨.ok .denied, .ok .granted⟩ = true ∧
    ((loadPhotos sampleHost goodPort [] bothFoldersFs).get
      (getBaseFilename "IMG_1.jpg")).isSome = true := by
  constructor
  · exact (permission_gate_boolean ⟨.ok .denied, .ok .granted⟩ sampleHost
      goodPort [] bothFoldersFs).1.mpr (Or.inr ⟨.denied, rfl, rfl⟩)
  · exact (permission_gate_boolean ⟨.ok .denied, .ok .granted⟩ sampleHost
      goodPort [] bothFoldersFs).2 "IMG_1.jpg" (by decide)

/-! ## C4: completeAllPending -/

theorem get_ne_after_update (store : Store) (i : String) (f : Photo → Photo)
    (j : String) (hj : i ≠ j) (hf : ∀ p, (f p).id = p.id) :
    (store.update i f).get j = store.get j := by
  rw [Store.get_update' store i f j hf, if_neg hj]

theorem get_ne_after_revert_update (photo : Photo) (store : Store)
    (f : Photo → Photo) (j : String) (hj : photo.id ≠ j)
    (hf : ∀ p, (f p).id = p.id) :
    (revertPhotoFields photo (store.update photo.id f)).get j =
      store.get j := by
  unfold revertPhotoFields
  rw [Store.get_update' _ photo.id _ j, if_neg hj,
    Store.get_update' store photo.id f j, if_neg hj]
  · exact hf
  · intro p
    rfl

theorem setStatusToCompleted_get_ne (port : FsPort) (photo : Photo)
    (st : Store) (fs : FS) (j : String) (hj : photo.id ≠ j) :
    (setStatusToCompleted port photo st fs).store.get j = st.get j := by
  cases hst : photo.status with
  | completed => simp only [setStatusToCompleted, hst]
  | camera =>
    simp only [setStatusToCompleted, hst]
    split
    · exact get_ne_after_revert_update photo st _ j hj (by intro p; rfl)
    · exact get_ne_after_update st photo.id _ j hj (by intro p; rfl)
  | pending =>
    simp only [setStatusToCompleted, hst]
    split
    · exact get_ne_after_revert_update photo st _ j hj (by intro p; rfl)
    · split
      · exact get_ne_after_revert_update photo st _ j hj (by intro p; rfl)
      · exact get_ne_after_update st photo.id _ j hj (by intro p; rfl)

theorem setStatusToCompleted_store_failure (port : FsPort) (photo : Photo)
    (st : Store) (fs : FS) (hget : st.get photo.id = some photo)
    (hfail : (setStatusToCompleted port photo st fs).result.success = false) :
    (setStatusToCompleted port photo st fs).store.get photo.id =
      some photo := by
  cases hst : photo.status with
  | completed => simp [setStatusToCompleted, hst] at hfail
  | camera =>
    simp only [setStatusToCompleted, hst] at hfail ⊢
    split at hfail
    · exact revert_after_update photo st _ (fun p => rfl) rfl hget
    · simp at hfail
  | pending =>
    simp only [setStatusToCompleted, hst] at hfail ⊢
    split at hfail
    · exact revert_after_update photo st _ (fun p => rfl) rfl hget
    · split at hfail
      · exact revert_after_update photo st _ (fun p => rfl) rfl hget
      · simp at hfail

theorem setStatusToCompleted_store_success_pending (port : FsPort)
    (photo : Photo) (st : Store) (fs : FS) (hst : photo.status = .pending)
    (hget : st.get photo.id = some photo)
    (hsucc : (setStatusToCompleted port photo st fs).result.success = true) :
    (setStatusToCompleted port photo st fs).store.get photo.id =
      some { photo with
              status := .completed,
              completedPath := some (completedFolder ++ "/" ++
                photo.originalName),
              pendingPath := none } := by
  simp only [setStatusToCompleted, hst] at hsucc ⊢
  split at hsucc
  · simp at hsucc
  · split at hsucc
    · simp at hsucc
    · rw [Store.get_update' st photo.id _ photo.id, if_pos rfl, hget]
      · rfl
      · intro p
        rfl

theorem get_self_of_nodup (store : Store)
    (hnd : (store.map Photo.id).Nodup) (p : Photo) (hp : p ∈ store) :
    store.get p.id = some p := by
  induction store with
  | nil => cases hp
  | cons e t ih =>
    rw [List.map_cons, List.nodup_cons] at hnd
    rw [Store.get_cons]
    by_cases he : e.id = p.id
    · rw [if_pos he]
      rcases List.mem_cons.mp hp with h1 | h1
      · rw [h1]
      · exact absurd (he ▸ List.mem_map_of_mem Photo.id h1) hnd.1
    · rw [if_neg he]
      rcases List.mem_cons.mp hp with h1 | h1
      · exact absurd (congrArg Photo.id h1.symm) he
      · exact ih hnd.2 h1

theorem completeAllLoop_spec (port : FsPort) (ps : List Photo) :
    ∀ (st : Store) (fs : FS),
    (∀ p ∈ ps, p.status = .pending) →
    (ps.map Photo.id).Nodup →
    (∀ p ∈ ps, st.get p.id = some p) →
    ((completeAllLoop port ps st fs).2.2.2.1.length +
        (completeAllLoop port ps st fs).2.2.2.2.length = ps.length) ∧
    (∀ p ∈ ps,
      (p.id ∈ (completeAllLoop port ps st fs).2.2.2.1 ∧
        (completeAllLoop port ps st fs).1.get p.id =
          some { p with
                  status := .completed,
                  completedPath := some (completedFolder ++ "/" ++
                    p.originalName),
                  pendingPath := none }) ∨
      (p.id ∈ (completeAllLoop port ps st fs).2.2.2.2 ∧
        (completeAllLoop port ps st fs).1.get p.id = some p)) ∧
    (∀ j, (∀ p ∈ ps, p.id ≠ j) →
      (completeAllLoop port ps st fs).1.get j = st.get j) := by
  induction ps with
  | nil =>
    intro st fs _ _ _
    exact ⟨rfl, fun p hp => absurd hp (List.not_mem_nil p), fun j _ => rfl⟩
  | cons p t ih =>
    intro st fs hpend hnd hget
    rw [List.map_cons, List.nodup_cons] at hnd
    have hgetr : ∀ q ∈ t, (setStatusToCompleted port p st fs).store.get q.id
        = some q := by
      intro q hq
      have hne : p.id ≠ q.id := fun he =>
        hnd.1 (he ▸ List.mem_map_of_mem Photo.id hq)
      rw [setStatusToCompleted_get_ne port p st fs q.id hne]
      exact hget q (List.mem_cons_of_mem _ hq)
    have ihr := ih (setStatusToCompleted port p st fs).store
      (setStatusToCompleted port p st fs).fs
      (fun q hq => hpend q (List.mem_cons_of_mem _ hq)) hnd.2 hgetr
    by_cases hs : (setStatusToCompleted port p st fs).result.success = true
    · simp only [completeAllLoop, hs, if_pos]
      refine ⟨?_, ?_, ?_⟩
      · have h1 := ihr.1
        simp only [List.length_cons]
        omega
      · intro q hq
        rcases List.mem_cons.mp hq with h1 | h1
        · subst h1
          left
          refine ⟨List.mem_cons_self _ _, ?_⟩
          rw [ihr.2.2 q.id (fun p2 hp2 he =>
            hnd.1 (he ▸ List.mem_map_of_mem Photo.id hp2))]
          exact setStatusToCompleted_store_success_pending port q st fs
            (hpend q (List.mem_cons_self _ _))
            (hget q (List.mem_cons_self _ _)) hs
        · rcases ihr.2.1 q h1 with ⟨h2, h3⟩ | ⟨h2, h3⟩
          · exact Or.inl ⟨List.mem_cons_of_mem _ h2, h3⟩
          · exact Or.inr ⟨h2, h3⟩
      · intro j hj
        rw [ihr.2.2 j (fun q hq => hj q (List.mem_cons_of_mem _ hq))]
        exact setStatusToCompleted_get_ne port p st fs j
          (hj p (List.mem_cons_self _ _))
    · simp only [completeAllLoop]
      rw [if_neg hs]
      refine ⟨?_, ?_, ?_⟩
      · have h1 := ihr.1
        simp only [List.length_cons]
        omega
      · intro q hq
        rcases List.mem_cons.mp hq with h1 | h1
        · subst h1
          right
          refine ⟨List.mem_cons_self _ _, ?_⟩
          rw [ihr.2.2 q.id (fun p2 hp2 he =>
            hnd.1 (he ▸ List.mem_map_of_mem Photo.id hp2))]
          exact setStatusToCompleted_store_failure port q st fs
            (hget q (List.mem_cons_self _ _))
            (Bool.not_eq_true _ ▸ eq_false_of_ne_true hs)
        · rcases ihr.2.1 q h1 with ⟨h2, h3⟩ | ⟨h2, h3⟩
          · exact Or.inl ⟨h2, h3⟩
          · exact Or.inr ⟨List.mem_cons_of_mem _ h2, h3⟩
      · intro j hj
        rw [ihr.2.2 j (fun q hq => hj q (List.mem_cons_of_mem _ hq))]
        exact setStatusToCompleted_get_ne port p st fs j
          (hj p (List.mem_cons_self _ _))

/-- C4: `completeAllPending` enumerates all pending records, completes each
sequentially, continues past failures, returns success only when all
succeeded (otherwise a summary error counting successes and failures),
and exactly the records whose individual transitions succeeded end
`completed` while failed ones are rolled back to `pending` — no
batch-level rollback, and no other record is touched. -/
theorem completeAllPending_spec (port : FsPort) (store : Store) (fs : FS)
    (hnd : (store.map Photo.id).Nodup) :
    ((completeAllPending port store fs).result.success = true ↔
      (completeAllPending port store fs).failed = []) ∧
    ((completeAllPending port store fs).failed ≠ [] →
      (completeAllPending port store fs).result.error =
        some ("Completed " ++
          toString (completeAllPending port store fs).succeeded.length ++
          " photos, failed " ++
          toString (completeAllPending port store fs).failed.length)) ∧
    ((completeAllPending port store fs).succeeded.length +
        (completeAllPending port store fs).failed.length =
      (store.filter (fun p => decide (p.status = .pending))).length) ∧
    (∀ p ∈ store, p.status = .pending →
      (p.id ∈ (completeAllPending port store fs).succeeded ∧
        (completeAllPending port store fs).store.get p.id =
          some { p with
                  status := .completed,
                  completedPath := some (completedFolder ++ "/" ++
                    p.originalName),
                  pendingPath := none }) ∨
      (p.id ∈ (completeAllPending port store fs).failed ∧
        (completeAllPending port store fs).store.get p.id = some p)) ∧
    (∀ j, (∀ p ∈ store, p.status = .pending → p.id ≠ j) →
      (completeAllPending port store fs).store.get j = store.get j) := by
  have hpend : ∀ p ∈ store.filter (fun p => decide (p.status = .pending)),
      p.status = .pending :=
    fun p hp => of_decide_eq_true (List.mem_filter.mp hp).2
  have hnd2 : ((store.filter (fun p => decide (p.status = .pending))).map
      Photo.id).Nodup :=
    List.Nodup.sublist (List.Sublist.map Photo.id (List.filter_sublist _)) hnd
  have hget : ∀ p ∈ store.filter (fun p => decide (p.status = .pending)),
      store.get p.id = some p :=
    fun p hp => get_self_of_nodup store hnd p (List.mem_of_mem_filter hp)
  have hloop := completeAllLoop_spec port
    (store.filter (fun p => decide (p.status = .pending))) store fs hpend
    hnd2 hget
  by_cases hf : (completeAllLoop port
      (store.filter (fun p => decide (p.status = .pending))) store
      fs).2.2.2.2.length > 0
  · simp only [completeAllPending, if_pos hf]
    refine ⟨?_, fun _ => trivial, hloop.1, ?_, ?_⟩
    · exact iff_of_false (by simp)
        (by simpa using List.length_pos.mp hf)
    · intro p hp hps
      exact hloop.2.1 p (List.mem_filter.mpr ⟨hp, decide_eq_true hps⟩)
    · intro j hj
      exact hloop.2.2 j (fun p hp =>
        hj p (List.mem_of_mem_filter hp) (hpend p hp))
  · simp only [completeAllPending, if_neg hf]
    have hnil : (completeAllLoop port
        (store.filter (fun p => decide (p.status = .pending))) store
        fs).2.2.2.2 = [] :=
      List.length_eq_zero.mp (Nat.eq_zero_of_not_pos hf)
    refine ⟨iff_of_true trivial hnil, fun h => absurd hnil h, hloop.1, ?_, ?_⟩
    · intro p hp hps
      exact hloop.2.1 p (List.mem_filter.mpr ⟨hp, decide_eq_true hps⟩)
    · intro j hj
      exact hloop.2.2 j (fun p hp =>
        hj p (List.mem_of_mem_filter hp) (hpend p hp))

/-- C4 witness: over two pending records with only one backing file, the
batch reports 1 success and 1 failure, the successful record ends
`completed`, the failed one stays `pending`. -/
theorem completeAllPending_spec_witness :
    (completeAllPending goodPort [samplePhotoPending, samplePhotoPendingMissing]
      oneOfTwoFs).result.success = false ∧
    (completeAllPending goodPort [samplePhotoPending, samplePhotoPendingMissing]
      oneOfTwoFs).result.error = some "Completed 1 photos, failed 1" ∧
    ((completeAllPending goodPort
        [samplePhotoPending, samplePhotoPendingMissing] oneOfTwoFs).store.get
      "IMG_5").map Photo.status = some .completed ∧
    ((completeAllPending goodPort
        [samplePhotoPending, samplePhotoPendingMissing] oneOfTwoFs).store.get
      "IMG_6").map Photo.status = some .pending := by
  have h := completeAllPending_spec goodPort
    [samplePhotoPending, samplePhotoPendingMissing] oneOfTwoFs (by decide)
  refine ⟨by decide, by decide, ?_, ?_⟩
  · rcases h.2.2.2.1 samplePhotoPending (by decide) (by decide) with
      ⟨_, h2⟩ | ⟨h1, _⟩
    · rw [show samplePhotoPending.id = "IMG_5" from rfl] at h2
      rw [h2]
      rfl
    · exact absurd h1 (by decide)
  · rcases h.2.2.2.1 samplePhotoPendingMissing (by decide) (by decide) with
      ⟨h1, _⟩ | ⟨_, h2⟩
    · exact absurd h1 (by decide)
    · rw [show samplePhotoPendingMissing.id = "IMG_6" from rfl] at h2
      rw [h2]
      rfl
